import Mathlib

/-!
# go-patterns: the functional (deferred-action) builder

Shallow embedding of `builder-funcional/main.go`.

The Go program works on heap objects through pointers (`*Person`,
`*PersonBuilder`) and prints to standard output from inside the recorded
closures.  The embedding keeps all three visible:

* `World` is the program state: the heap of `Person` objects, the heap of
  `PersonBuilder` objects and the lines written to standard output;
* a pointer is `Option Nat`: `none` is Go's `nil`, `some a` is the object at
  address `a` of the corresponding heap;
* an operation that dereferences a pointer returns `Option`: `none` is the
  run-time panic of a nil dereference.

A closure value of type `PersonModifier` is represented by the function
literal it was created from together with the variables it captured.
-/

namespace BuilderFuncional

/-! ## Data model -/

/-- Record `Person` of the functional builder: `Name, Address, City string`. -/
structure Person where
  Name : String
  Address : String
  City : String
deriving DecidableEq, Repr

/-- Zero value `Person{}`: every field is the empty string. -/
def Person.zero : Person := { Name := "", Address := "", City := "" }

/-- Pointer value: `none` is `nil`, `some a` points at heap address `a`. -/
abbrev Ptr := Option Nat

/-- Closure values of type `PersonModifier` (`func(*Person)`).  The program
creates them from two function literals only: the one in `Called`, which
captures `name`, and the one in `LivesAt`, which captures `address` and
`city`. -/
inductive PersonModifier where
  | calledFn (name : String)
  | livesAtFn (address city : String)
deriving DecidableEq, Repr

/-- Struct `PersonBuilder`: the slice `actions []PersonModifier`. -/
structure PersonBuilder where
  actions : List PersonModifier
deriving DecidableEq, Repr

/-- Program state: both object heaps and the lines printed so far. -/
structure World where
  persons : List Person
  builders : List PersonBuilder
  stdout : List String
deriving DecidableEq, Repr

/-! ## Heap and output primitives -/

/-- Read `*p` for `p : *Person`; `none` when `p` is nil (or not allocated). -/
def loadPerson (p : Ptr) (w : World) : Option Person :=
  match p with
  | none => none
  | some a => w.persons[a]?

/-- Field update through `p : *Person` (`p.F = v`): panics on a nil `p`. -/
def storePerson (p : Ptr) (f : Person → Person) (w : World) : Option World :=
  match p with
  | none => none
  | some a =>
    match w.persons[a]? with
    | none => none
    | some r => some { w with persons := w.persons.set a (f r) }

/-- Read `*pb` for `pb : *PersonBuilder`; `none` when `pb` is nil. -/
def loadBuilder (pb : Ptr) (w : World) : Option PersonBuilder :=
  match pb with
  | none => none
  | some a => w.builders[a]?

/-- Field update through `pb : *PersonBuilder`: panics on a nil `pb`. -/
def storeBuilder (pb : Ptr) (f : PersonBuilder → PersonBuilder) (w : World) : Option World :=
  match pb with
  | none => none
  | some a =>
    match w.builders[a]? with
    | none => none
    | some b => some { w with builders := w.builders.set a (f b) }

/-- Allocation `&Person{}`: a new zero-valued object at the next free address. -/
def allocPerson (w : World) : Ptr × World :=
  (some w.persons.length, { w with persons := w.persons ++ [Person.zero] })

/-- Allocation `&PersonBuilder{}`: a new builder whose `actions` slice is nil
(the empty sequence). -/
def allocBuilder (w : World) : Ptr × World :=
  (some w.builders.length, { w with builders := w.builders ++ [{ actions := [] }] })

/-- Call `fmt.Println(s)`: one more line on standard output. -/
def println (s : String) (w : World) : World :=
  { w with stdout := w.stdout ++ [s] }

/-! ## The program -/

/-- Invocation `action(p)` of a recorded closure.

* closure of `Called`: `fmt.Println("Adding name...")`, `p.Name = name`;
* closure of `LivesAt`: `fmt.Println("Adding address and city...")`,
  `p.Address = address`, `p.City = city`. -/
def PersonModifier.call (action : PersonModifier) (p : Ptr) (w : World) : Option World :=
  match action with
  | .calledFn name =>
    storePerson p (fun r => { r with Name := name }) (println "Adding name..." w)
  | .livesAtFn address city =>
    (storePerson p (fun r => { r with Address := address })
        (println "Adding address and city..." w)).bind
      (storePerson p (fun r => { r with City := city }))

/-- Method `Called`: `pb.actions = append(pb.actions, func(p *Person) {...})`,
then `return pb`. -/
def Called (pb : Ptr) (name : String) (w : World) : Option (Ptr × World) :=
  (storeBuilder pb (fun b => { b with actions := b.actions ++ [.calledFn name] }) w).map
    (fun w1 => (pb, w1))

/-- Method `LivesAt`: `pb.actions = append(pb.actions, func(p *Person) {...})`,
then `return pb`. -/
def LivesAt (pb : Ptr) (address city : String) (w : World) : Option (Ptr × World) :=
  (storeBuilder pb (fun b => { b with actions := b.actions ++ [.livesAtFn address city] }) w).map
    (fun w1 => (pb, w1))

/-- Loop `for _, action := range actions { action(p) }`. -/
def runActions (actions : List PersonModifier) (p : Ptr) (w : World) : Option World :=
  match actions with
  | [] => some w
  | action :: rest => (action.call p w).bind (runActions rest p)

/-- Method `Build`: `p := &Person{}`, run every recorded action on `p` in
slice order, `return p`. -/
def Build (pb : Ptr) (w : World) : Option (Ptr × World) :=
  let (p, w1) := allocPerson w
  match loadBuilder pb w1 with
  | none => none
  | some b => (runActions b.actions p w1).map (fun w2 => (p, w2))

/-- Function `NewPersonBuilder`: `return &PersonBuilder{}`. -/
def NewPersonBuilder (w : World) : Ptr × World :=
  allocBuilder w

/-! ## Call sequences -/

/-- One configuration call of a client: `Called(name)` or `LivesAt(address, city)`. -/
inductive Call where
  | called (name : String)
  | livesAt (address city : String)
deriving DecidableEq, Repr

/-- Perform one configuration call on the builder `pb`. -/
def Call.run (c : Call) (pb : Ptr) (w : World) : Option (Ptr × World) :=
  match c with
  | .called name => Called pb name w
  | .livesAt address city => LivesAt pb address city w

/-- Method chain `pb.c1(...).c2(...). ... .cn(...)`: each call is made on
the pointer returned by the previous one. -/
def chain (cs : List Call) (pb : Ptr) (w : World) : Option (Ptr × World) :=
  match cs with
  | [] => some (pb, w)
  | c :: rest =>
    match c.run pb w with
    | none => none
    | some (pb1, w1) => chain rest pb1 w1

/-- Closure recorded by a configuration call. -/
def Call.step (c : Call) : PersonModifier :=
  match c with
  | .called name => .calledFn name
  | .livesAt address city => .livesAtFn address city

/-! ## Specification-level reading of `build()`

The following definitions follow the words of the specification, not the
code: a configuration call stands for its field assignments, and `build()`
applies them to an all-default record, first configured first applied. -/

/-- Field assignments described by one configuration call. -/
def Call.assign (r : Person) (c : Call) : Person :=
  match c with
  | .called name => { r with Name := name }
  | .livesAt address city => { r with Address := address, City := city }

/-- Record the specification prescribes for the calls `cs`. -/
def specBuild (cs : List Call) : Person :=
  cs.foldl Call.assign Person.zero

/-! ## Pure effect of the recorded closures (proof device) -/

/-- Effect of one closure on the record it is run on. -/
def PersonModifier.effect (r : Person) (action : PersonModifier) : Person :=
  match action with
  | .calledFn name => { r with Name := name }
  | .livesAtFn address city => { { r with Address := address } with City := city }

/-- Line a closure prints when it runs. -/
def PersonModifier.message (action : PersonModifier) : String :=
  match action with
  | .calledFn _ => "Adding name..."
  | .livesAtFn _ _ => "Adding address and city..."

/-! ## What a client observes -/

/-- Statement `r := *pb.Build()`: the call, then a read of the returned
pointer in the state the call leaves. -/
def buildRecord (pb : Ptr) (w : World) : Option Person :=
  match Build pb w with
  | none => none
  | some (p, w1) => loadPerson p w1

/-- Expression `*pb.c1(...). ... .cn(...).Build()`. -/
def chainBuild (cs : List Call) (pb : Ptr) (w : World) : Option Person :=
  match chain cs pb w with
  | none => none
  | some (pb1, w1) => buildRecord pb1 w1

/-- Run `pb.Build()` `n` times in a row, discarding the results. -/
def buildTimes (n : Nat) (pb : Ptr) (w : World) : Option World :=
  match n with
  | 0 => some w
  | k + 1 =>
    match Build pb w with
    | none => none
    | some (_, w1) => buildTimes k pb w1

/-! ## Client programs

A client that holds one builder `pb` and keeps every record it has built:
`r0 := pb.Build()`, `r1 := pb.Build()`, ...  Between builds it may configure
the builder and assign to the fields of the records it holds. -/

/-- Assignment to one field of a record: `r.Name = v`, `r.Address = v` or
`r.City = v`. -/
inductive FieldWrite where
  | name (v : String)
  | address (v : String)
  | city (v : String)
deriving DecidableEq, Repr

/-- Record after a field assignment. -/
def FieldWrite.apply (fw : FieldWrite) (r : Person) : Person :=
  match fw with
  | .name v => { r with Name := v }
  | .address v => { r with Address := v }
  | .city v => { r with City := v }

/-- One statement of the client: a configuration call on `pb`, a
`Build` whose result becomes the next held record, or a field assignment
through the `k`-th held record. -/
inductive ClientOp where
  | configure (c : Call)
  | build
  | write (k : Nat) (fw : FieldWrite)
deriving DecidableEq, Repr

/-- Run one client statement; `rs` lists the pointers returned by the
`Build` calls made so far, oldest first. -/
def ClientOp.run (op : ClientOp) (pb : Ptr) (w : World) (rs : List Ptr) :
    Option (World × List Ptr) :=
  match op with
  | .configure c =>
    match c.run pb w with
    | none => none
    | some (_, w1) => some (w1, rs)
  | .build =>
    match Build pb w with
    | none => none
    | some (p, w1) => some (w1, rs ++ [p])
  | .write k fw =>
    match rs[k]? with
    | none => none
    | some p =>
      match storePerson p fw.apply w with
      | none => none
      | some w1 => some (w1, rs)

/-- Run a client program. -/
def runClient (ops : List ClientOp) (pb : Ptr) (w : World) (rs : List Ptr) :
    Option (World × List Ptr) :=
  match ops with
  | [] => some (w, rs)
  | op :: rest =>
    match op.run pb w rs with
    | none => none
    | some (w1, rs1) => runClient rest pb w1 rs1

/-- A client program is well scoped when every field assignment goes through
a record that has been built before it; `n` is the number of records held at
the start. -/
def wellScoped (ops : List ClientOp) (n : Nat) : Bool :=
  match ops with
  | [] => true
  | .configure _ :: rest => wellScoped rest n
  | .build :: rest => wellScoped rest (n + 1)
  | .write k _ :: rest => decide (k < n) && wellScoped rest n

/-- Configuration calls of a client program, in program order. -/
def configured (ops : List ClientOp) : List Call :=
  match ops with
  | [] => []
  | .configure c :: rest => c :: configured rest
  | .build :: rest => configured rest
  | .write _ _ :: rest => configured rest

/-- Sample client: build, overwrite the name of the first record, build
again, add a step, overwrite the city of the second record, build. -/
def sampleClient : List ClientOp :=
  [.build, .write 0 (.name "Zed"), .build, .configure (.called "Eve"),
   .write 1 (.city "Lima"), .build]

/-- Sample state used to instantiate the theorems: one live `Person`, an
empty builder at address 0, a builder with two recorded steps at address 1,
and one line already printed. -/
def sampleWorld : World :=
  { persons := [{ Name := "Ann", Address := "1 High Rd", City := "Rome" }]
    builders := [{ actions := [] },
                 { actions := [.calledFn "Bob", .livesAtFn "2 Low St" "Oslo"] }]
    stdout := ["ready"] }

/-- Builder stored at address 1 of `sampleWorld`. -/
def sampleBuilder : PersonBuilder :=
  { actions := [.calledFn "Bob", .livesAtFn "2 Low St" "Oslo"] }

/-! ## Last-writer reading of a call sequence

These two definitions follow the words of the last-writer characterisation:
the argument of the last `Called` call, and the argument pair of the last
`LivesAt` call, of a call sequence. -/

/-- Argument of the last `Called` call of `cs`, if there is one. -/
def lastCalled (cs : List Call) : Option String :=
  cs.reverse.findSome? (fun c =>
    match c with
    | .called name => some name
    | .livesAt _ _ => none)

/-- Argument pair of the last `LivesAt` call of `cs`, if there is one. -/
def lastLivesAt (cs : List Call) : Option (String × String) :=
  cs.reverse.findSome? (fun c =>
    match c with
    | .called _ => none
    | .livesAt address city => some (address, city))

end BuilderFuncional

/-!
# go-patterns: the fluent builder with sub-builders

Shallow embedding of `builder/main.go`.  Same conventions as above: objects
live in heaps indexed by address, a pointer is `Option Nat` with `none` for
`nil`, and a method that dereferences a nil pointer returns `none`.
-/

namespace BuilderFluent

/-! ## Data model -/

/-- A Go `float64`, held as its IEEE 754 binary64 bit pattern.  The program
only stores and copies such values; it never computes with them. -/
structure Float64 where
  bits : Nat
deriving DecidableEq, Repr

/-- Zero value of `float64`: `+0`, all bits clear. -/
def Float64.zero : Float64 := { bits := 0 }

/-- The constant `75000` of `main` converted to `float64`: sign 0, biased
exponent `1023 + 16 = 0x40F`, fraction `(75000 - 2^16) * 2^36 = 0x24F8000000000`. -/
def Float64.c75000 : Float64 := { bits := 0x40F24F8000000000 }

/-- Record `Person` of the fluent builder. -/
structure Person where
  Name : String
  Address : String
  Postcode : String
  City : String
  Position : String
  Income : Float64
deriving DecidableEq, Repr

/-- Zero value `Person{}`. -/
def Person.zero : Person :=
  { Name := "", Address := "", Postcode := "", City := "", Position := "",
    Income := Float64.zero }

/-- Pointer value: `none` is `nil`, `some a` points at heap address `a`. -/
abbrev Ptr := Option Nat

/-- Struct `PersonBuilder`: `person *Person`. -/
structure PersonBuilder where
  person : Ptr
deriving DecidableEq, Repr

/-- Struct `PersonJobBuilder`: `builder *PersonBuilder`. -/
structure PersonJobBuilder where
  builder : Ptr
deriving DecidableEq, Repr

/-- Struct `PersonAddressBuilder`: `builder *PersonBuilder`. -/
structure PersonAddressBuilder where
  builder : Ptr
deriving DecidableEq, Repr

/-- Program state: one heap per struct type. -/
structure World where
  persons : List Person
  builders : List PersonBuilder
  addressBuilders : List PersonAddressBuilder
  jobBuilders : List PersonJobBuilder
deriving DecidableEq, Repr

/-! ## Heap primitives -/

/-- Read `*p` for `p : *Person`; `none` when `p` is nil. -/
def loadPerson (p : Ptr) (w : World) : Option Person :=
  match p with
  | none => none
  | some a => w.persons[a]?

/-- Field update through `p : *Person` (`p.F = v`): panics on a nil `p`. -/
def storePerson (p : Ptr) (f : Person → Person) (w : World) : Option World :=
  match p with
  | none => none
  | some a =>
    match w.persons[a]? with
    | none => none
    | some r => some { w with persons := w.persons.set a (f r) }

/-- Read `*pb` for `pb : *PersonBuilder`; `none` when `pb` is nil. -/
def loadBuilder (pb : Ptr) (w : World) : Option PersonBuilder :=
  match pb with
  | none => none
  | some a => w.builders[a]?

/-- Read `*ab` for `ab : *PersonAddressBuilder`; `none` when `ab` is nil. -/
def loadAddressBuilder (ab : Ptr) (w : World) : Option PersonAddressBuilder :=
  match ab with
  | none => none
  | some a => w.addressBuilders[a]?

/-- Read `*jb` for `jb : *PersonJobBuilder`; `none` when `jb` is nil. -/
def loadJobBuilder (jb : Ptr) (w : World) : Option PersonJobBuilder :=
  match jb with
  | none => none
  | some a => w.jobBuilders[a]?

/-- Allocation `&Person{}`. -/
def allocPerson (w : World) : Ptr × World :=
  (some w.persons.length, { w with persons := w.persons ++ [Person.zero] })

/-- Allocation `&PersonBuilder{person: p}`; `&PersonBuilder{}` is the case
`p = nil`. -/
def allocBuilder (p : Ptr) (w : World) : Ptr × World :=
  (some w.builders.length, { w with builders := w.builders ++ [{ person := p }] })

/-- Allocation `&PersonAddressBuilder{builder: pb}`. -/
def allocAddressBuilder (pb : Ptr) (w : World) : Ptr × World :=
  (some w.addressBuilders.length,
   { w with addressBuilders := w.addressBuilders ++ [{ builder := pb }] })

/-- Allocation `&PersonJobBuilder{builder: pb}`. -/
def allocJobBuilder (pb : Ptr) (w : World) : Ptr × World :=
  (some w.jobBuilders.length, { w with jobBuilders := w.jobBuilders ++ [{ builder := pb }] })

/-! ## The program -/

/-- Method `Called`: `pb.person.Name = name`, `return pb`. -/
def Called (pb : Ptr) (name : String) (w : World) : Option (Ptr × World) :=
  match loadBuilder pb w with
  | none => none
  | some b =>
    match storePerson b.person (fun r => { r with Name := name }) w with
    | none => none
    | some w1 => some (pb, w1)

/-- Method `Lives`: `return &PersonAddressBuilder{builder: pb}`.  The
receiver is stored, not dereferenced. -/
def Lives (pb : Ptr) (w : World) : Ptr × World :=
  allocAddressBuilder pb w

/-- Method `At`: `ab.builder.person.Address = address`, `return ab`. -/
def At (ab : Ptr) (address : String) (w : World) : Option (Ptr × World) :=
  match loadAddressBuilder ab w with
  | none => none
  | some s =>
    match loadBuilder s.builder w with
    | none => none
    | some b =>
      match storePerson b.person (fun r => { r with Address := address }) w with
      | none => none
      | some w1 => some (ab, w1)

/-- Method `WithPostcode`: `ab.builder.person.Postcode = postcode`,
`return ab`. -/
def WithPostcode (ab : Ptr) (postcode : String) (w : World) : Option (Ptr × World) :=
  match loadAddressBuilder ab w with
  | none => none
  | some s =>
    match loadBuilder s.builder w with
    | none => none
    | some b =>
      match storePerson b.person (fun r => { r with Postcode := postcode }) w with
      | none => none
      | some w1 => some (ab, w1)

/-- Method `In`: `ab.builder.person.City = city`, `return ab.builder`. -/
def In (ab : Ptr) (city : String) (w : World) : Option (Ptr × World) :=
  match loadAddressBuilder ab w with
  | none => none
  | some s =>
    match loadBuilder s.builder w with
    | none => none
    | some b =>
      match storePerson b.person (fun r => { r with City := city }) w with
      | none => none
      | some w1 =>
        match loadAddressBuilder ab w1 with
        | none => none
        | some s1 => some (s1.builder, w1)

/-- Method `Works`: `return &PersonJobBuilder{builder: pb}`. -/
def Works (pb : Ptr) (w : World) : Ptr × World :=
  allocJobBuilder pb w

/-- Method `AsA`: `jb.builder.person.Position = position`, `return jb`. -/
def AsA (jb : Ptr) (position : String) (w : World) : Option (Ptr × World) :=
  match loadJobBuilder jb w with
  | none => none
  | some s =>
    match loadBuilder s.builder w with
    | none => none
    | some b =>
      match storePerson b.person (fun r => { r with Position := position }) w with
      | none => none
      | some w1 => some (jb, w1)

/-- Method `Earning`: `jb.builder.person.Income = income`,
`return jb.builder`. -/
def Earning (jb : Ptr) (income : Float64) (w : World) : Option (Ptr × World) :=
  match loadJobBuilder jb w with
  | none => none
  | some s =>
    match loadBuilder s.builder w with
    | none => none
    | some b =>
      match storePerson b.person (fun r => { r with Income := income }) w with
      | none => none
      | some w1 =>
        match loadJobBuilder jb w1 with
        | none => none
        | some s1 => some (s1.builder, w1)

/-- Function `NewPersonBuilder`: `return &PersonBuilder{person: &Person{}}`. -/
def NewPersonBuilder (w : World) : Ptr × World :=
  let (p, w1) := allocPerson w
  allocBuilder p w1

/-- Method `Build`: `return pb.person`. -/
def Build (pb : Ptr) (w : World) : Option (Ptr × World) :=
  match loadBuilder pb w with
  | none => none
  | some b => some (b.person, w)

/-- Function `main` up to the final print: the chain of nine calls; the
result is the pointer handed to `fmt.Println`. -/
def mainChain (w : World) : Option (Ptr × World) :=
  let (pb0, w0) := NewPersonBuilder w
  match Called pb0 "John Doe" w0 with
  | none => none
  | some (pb1, w1) =>
    let (ab2, w2) := Lives pb1 w1
    match At ab2 "123 Main St" w2 with
    | none => none
    | some (ab3, w3) =>
      match WithPostcode ab3 "12345" w3 with
      | none => none
      | some (ab4, w4) =>
        match In ab4 "Anytown" w4 with
        | none => none
        | some (pb5, w5) =>
          let (jb6, w6) := Works pb5 w5
          match AsA jb6 "Software Engineer" w6 with
          | none => none
          | some (jb7, w7) =>
            match Earning jb7 Float64.c75000 w7 with
            | none => none
            | some (pb8, w8) => Build pb8 w8

/-- Chain of `main` with arbitrary arguments:
`NewPersonBuilder().Called(n).Lives().At(a).WithPostcode(p).In(c).Works().AsA(pos).Earning(inc).Build()`. -/
def fullChain (n a p c pos : String) (inc : Float64) (w : World) : Option (Ptr × World) :=
  let (pb0, w0) := NewPersonBuilder w
  match Called pb0 n w0 with
  | none => none
  | some (pb1, w1) =>
    let (ab2, w2) := Lives pb1 w1
    match At ab2 a w2 with
    | none => none
    | some (ab3, w3) =>
      match WithPostcode ab3 p w3 with
      | none => none
      | some (ab4, w4) =>
        match In ab4 c w4 with
        | none => none
        | some (pb5, w5) =>
          let (jb6, w6) := Works pb5 w5
          match AsA jb6 pos w6 with
          | none => none
          | some (jb7, w7) =>
            match Earning jb7 inc w7 with
            | none => none
            | some (pb8, w8) => Build pb8 w8

/-! ## What a client observes -/

/-- Statement `r := *pb.Build()`: the call, then a read of the returned
pointer. -/
def buildRecord (pb : Ptr) (w : World) : Option Person :=
  match Build pb w with
  | none => none
  | some (p, w1) => loadPerson p w1

/-- One call of the vocabulary shared with the functional builder, made on
the fluent builder: `Called(n)` is `pb.Called(n)`, and the address group
`LivesAt(a, c)` is `pb.Lives().At(a).In(c)`. -/
def runCall (c : BuilderFuncional.Call) (pb : Ptr) (w : World) : Option (Ptr × World) :=
  match c with
  | .called name => Called pb name w
  | .livesAt address city =>
    let (ab, w1) := Lives pb w
    match At ab address w1 with
    | none => none
    | some (ab1, w2) => In ab1 city w2

/-- Chain of shared calls, each made on the builder the previous one
returned. -/
def chain (cs : List BuilderFuncional.Call) (pb : Ptr) (w : World) : Option (Ptr × World) :=
  match cs with
  | [] => some (pb, w)
  | c :: rest =>
    match runCall c pb w with
    | none => none
    | some (pb1, w1) => chain rest pb1 w1

/-- Chain of shared calls followed by `Build` and a read of the result. -/
def chainBuild (cs : List BuilderFuncional.Call) (pb : Ptr) (w : World) : Option Person :=
  match chain cs pb w with
  | none => none
  | some (pb1, w1) => buildRecord pb1 w1

/-- Field assignments of one shared call on a fluent record (proof device). -/
def assign (r : Person) (c : BuilderFuncional.Call) : Person :=
  match c with
  | .called name => { r with Name := name }
  | .livesAt address city => { { r with Address := address } with City := city }

/-! ## Method chains

A chain of method calls has a current receiver: a builder, an address
sub-builder or a job sub-builder.  The Go type checker admits a method only
on a receiver of its type; `wellTyped` is that check. -/

/-- Static type of the receiver of a call. -/
inductive Kind where
  | builder
  | address
  | job
deriving DecidableEq, Repr

/-- Receiver of the next call of a chain. -/
inductive Recv where
  | builder (pb : Ptr)
  | address (ab : Ptr)
  | job (jb : Ptr)
deriving DecidableEq, Repr

/-- One method call with its arguments. -/
inductive Method where
  | Called (name : String)
  | Lives
  | At (address : String)
  | WithPostcode (postcode : String)
  | In (city : String)
  | Works
  | AsA (position : String)
  | Earning (income : Float64)
  | Build
deriving DecidableEq, Repr

/-- Receiver type a method is declared on, and the type of the receiver the
chain continues with.  `Build` returns a `*Person`, which has no methods: the
client goes on with the builder it called `Build` on. -/
def Method.signature (m : Method) : Kind × Kind :=
  match m with
  | .Called _ => (.builder, .builder)
  | .Lives => (.builder, .address)
  | .At _ => (.address, .address)
  | .WithPostcode _ => (.address, .address)
  | .In _ => (.address, .builder)
  | .Works => (.builder, .job)
  | .AsA _ => (.job, .job)
  | .Earning _ => (.job, .builder)
  | .Build => (.builder, .builder)

/-- A chain type-checks from a receiver of type `k`. -/
def wellTyped (ms : List Method) (k : Kind) : Bool :=
  match ms with
  | [] => true
  | m :: rest => decide (m.signature.1 = k) && wellTyped rest m.signature.2

/-- Static type of a receiver. -/
def Recv.kind (recv : Recv) : Kind :=
  match recv with
  | .builder _ => .builder
  | .address _ => .address
  | .job _ => .job

/-- Run one call on the current receiver; `none` when the call panics (or
is not a method of the receiver). -/
def Method.run (m : Method) (recv : Recv) (w : World) : Option (Recv × World) :=
  match recv, m with
  | .builder pb, .Called name =>
    match BuilderFluent.Called pb name w with
    | none => none
    | some (pb1, w1) => some (.builder pb1, w1)
  | .builder pb, .Lives => some (.address (BuilderFluent.Lives pb w).1, (BuilderFluent.Lives pb w).2)
  | .builder pb, .Works => some (.job (BuilderFluent.Works pb w).1, (BuilderFluent.Works pb w).2)
  | .builder pb, .Build =>
    match BuilderFluent.Build pb w with
    | none => none
    | some (_, w1) => some (.builder pb, w1)
  | .address ab, .At address =>
    match BuilderFluent.At ab address w with
    | none => none
    | some (ab1, w1) => some (.address ab1, w1)
  | .address ab, .WithPostcode postcode =>
    match BuilderFluent.WithPostcode ab postcode w with
    | none => none
    | some (ab1, w1) => some (.address ab1, w1)
  | .address ab, .In city =>
    match BuilderFluent.In ab city w with
    | none => none
    | some (pb1, w1) => some (.builder pb1, w1)
  | .job jb, .AsA position =>
    match BuilderFluent.AsA jb position w with
    | none => none
    | some (jb1, w1) => some (.job jb1, w1)
  | .job jb, .Earning income =>
    match BuilderFluent.Earning jb income w with
    | none => none
    | some (pb1, w1) => some (.builder pb1, w1)
  | _, _ => none

/-- Run a chain of calls. -/
def runMethods (ms : List Method) (recv : Recv) (w : World) : Option (Recv × World) :=
  match ms with
  | [] => some (recv, w)
  | m :: rest =>
    match m.run recv w with
    | none => none
    | some (recv1, w1) => runMethods rest recv1 w1

/-- The builder at `pb` exists and its `person` field points at a record:
neither `pb` nor `pb.person` is nil. -/
def builderOk (pb : Ptr) (w : World) : Bool :=
  match loadBuilder pb w with
  | none => false
  | some b => (loadPerson b.person w).isSome

/-- The receiver can be used without a nil dereference: a builder has a
record; a sub-builder exists and its parent is a builder with a record. -/
def Recv.ok (recv : Recv) (w : World) : Bool :=
  match recv with
  | .builder pb => builderOk pb w
  | .address ab =>
    match loadAddressBuilder ab w with
    | none => false
    | some s => builderOk s.builder w
  | .job jb =>
    match loadJobBuilder jb w with
    | none => false
    | some s => builderOk s.builder w

/-! ## Frame of a write -/

/-- State `w1` is state `w` with the record at `p` replaced by `r1`: no
other record, no builder and no sub-builder differs, and no object was
allocated. -/
def WritesOnly (w w1 : World) (p : Ptr) (r1 : Person) : Prop :=
  loadPerson p w1 = some r1
    ∧ w1.persons.length = w.persons.length
    ∧ (∀ q, q ≠ p → loadPerson q w1 = loadPerson q w)
    ∧ w1.builders = w.builders
    ∧ w1.addressBuilders = w.addressBuilders
    ∧ w1.jobBuilders = w.jobBuilders

/-! ## Sample state -/

/-- Sample record. -/
def sampleRecord : Person :=
  { Name := "Ann", Address := "1 High Rd", Postcode := "00100", City := "Rome",
    Position := "Pilot", Income := { bits := 0x4059000000000000 } }

/-- Sample state: two records; a zero-value builder at address 0 and a
builder of the record at address 1 at address 1; one address sub-builder and
one job sub-builder opened from the builder at address 1. -/
def sampleWorld : World :=
  { persons := [Person.zero, sampleRecord]
    builders := [{ person := none }, { person := some 1 }]
    addressBuilders := [{ builder := some 1 }]
    jobBuilders := [{ builder := some 1 }] }

/-- Sample chain: two complete groups, a build, and a group left open. -/
def sampleMethods : List Method :=
  [.Called "Eve", .Lives, .WithPostcode "53111", .At "3 Mid Ln", .In "Bonn", .Build,
   .Works, .AsA "Cook", .Earning Float64.c75000, .Called "Eva", .Lives, .At "4 Elm St"]

end BuilderFluent

namespace BuilderFuncional

/-! ## Lemmas on the primitives -/

theorem getElem?_append_cons_length {α : Type} (ps : List α) (r : α) (rest : List α) :
    (ps ++ r :: rest)[ps.length]? = some r := by
  induction ps with
  | nil => simp
  | cons x xs ih => simpa using ih

theorem storePerson_last (ps : List Person) (r : Person) (bs : List PersonBuilder)
    (out : List String) (f : Person → Person) :
    storePerson (some ps.length) f { persons := ps ++ [r], builders := bs, stdout := out }
      = some { persons := ps ++ [f r], builders := bs, stdout := out } := by
  simp [storePerson, List.getElem?_concat_length]

theorem call_last (action : PersonModifier) (ps : List Person) (r : Person)
    (bs : List PersonBuilder) (out : List String) :
    action.call (some ps.length) { persons := ps ++ [r], builders := bs, stdout := out }
      = some { persons := ps ++ [action.effect r], builders := bs,
               stdout := out ++ [action.message] } := by
  cases action with
  | calledFn name =>
    simp [PersonModifier.call, println, storePerson_last, PersonModifier.effect,
      PersonModifier.message]
  | livesAtFn address city =>
    simp [PersonModifier.call, println, storePerson_last, PersonModifier.effect,
      PersonModifier.message]

theorem runActions_last (actions : List PersonModifier) (ps : List Person) (r : Person)
    (bs : List PersonBuilder) (out : List String) :
    runActions actions (some ps.length) { persons := ps ++ [r], builders := bs, stdout := out }
      = some { persons := ps ++ [actions.foldl PersonModifier.effect r], builders := bs,
               stdout := out ++ actions.map PersonModifier.message } := by
  induction actions generalizing r out with
  | nil => simp [runActions]
  | cons action rest ih =>
    simp [runActions, call_last, ih]

/-- Closed form of `Build` on a live builder. -/
theorem Build_eq (pb : Ptr) (w : World) (b : PersonBuilder) (h : loadBuilder pb w = some b) :
    Build pb w = some (some w.persons.length,
      { persons := w.persons ++ [b.actions.foldl PersonModifier.effect Person.zero],
        builders := w.builders,
        stdout := w.stdout ++ b.actions.map PersonModifier.message }) := by
  have h1 : loadBuilder pb { w with persons := w.persons ++ [Person.zero] } = some b := by
    cases pb with
    | none => simp [loadBuilder] at h
    | some a => simpa [loadBuilder] using h
  simp only [Build, allocPerson, h1, runActions_last, Option.map_some']

/-- Closed form of `buildRecord` on a live builder. -/
theorem buildRecord_eq (pb : Ptr) (w : World) (b : PersonBuilder)
    (h : loadBuilder pb w = some b) :
    buildRecord pb w = some (b.actions.foldl PersonModifier.effect Person.zero) := by
  simp [buildRecord, Build_eq pb w b h, loadPerson, List.getElem?_concat_length]

/-- Closed form of a builder update on a live builder. -/
theorem storeBuilder_eq (a : Nat) (w : World) (b : PersonBuilder)
    (f : PersonBuilder → PersonBuilder) (h : loadBuilder (some a) w = some b) :
    storeBuilder (some a) f w = some { w with builders := w.builders.set a (f b) } := by
  simp only [loadBuilder] at h
  simp [storeBuilder, h]

theorem loadBuilder_live (pb : Ptr) (w : World) (b : PersonBuilder)
    (h : loadBuilder pb w = some b) : ∃ a, pb = some a ∧ a < w.builders.length := by
  cases pb with
  | none => simp [loadBuilder] at h
  | some a =>
    refine ⟨a, rfl, ?_⟩
    simp only [loadBuilder] at h
    exact (List.getElem?_eq_some.mp h).1

/-- One configuration call on a live builder: same pointer back, one step
appended at that builder, nothing else in the state touched. -/
theorem Call_run_eq (c : Call) (pb : Ptr) (w : World) (b : PersonBuilder)
    (h : loadBuilder pb w = some b) :
    ∃ w1, c.run pb w = some (pb, w1)
      ∧ loadBuilder pb w1 = some { actions := b.actions ++ [c.step] }
      ∧ w1.persons = w.persons ∧ w1.stdout = w.stdout
      ∧ w1.builders.length = w.builders.length
      ∧ ∀ q, q ≠ pb → loadBuilder q w1 = loadBuilder q w := by
  obtain ⟨a, rfl, ha⟩ := loadBuilder_live pb w b h
  cases c with
  | called name =>
    refine ⟨{ w with builders := w.builders.set a { actions := b.actions ++ [.calledFn name] } },
      by simp [Call.run, Called, storeBuilder_eq a w b _ h], ?_, rfl, rfl, ?_, ?_⟩
    · simp [loadBuilder, ha, Call.step]
    · simp
    · intro q hq
      cases q with
      | none => rfl
      | some a1 =>
        have : a ≠ a1 := fun e => hq (by rw [e])
        simp [loadBuilder, this]
  | livesAt address city =>
    refine ⟨{ w with builders :=
        w.builders.set a { actions := b.actions ++ [.livesAtFn address city] } },
      by simp [Call.run, LivesAt, storeBuilder_eq a w b _ h], ?_, rfl, rfl, ?_, ?_⟩
    · simp [loadBuilder, ha, Call.step]
    · simp
    · intro q hq
      cases q with
      | none => rfl
      | some a1 =>
        have : a ≠ a1 := fun e => hq (by rw [e])
        simp [loadBuilder, this]

/-- A chain of configuration calls on a live builder. -/
theorem chain_eq (cs : List Call) (pb : Ptr) (w : World) (b : PersonBuilder)
    (h : loadBuilder pb w = some b) :
    ∃ w1, chain cs pb w = some (pb, w1)
      ∧ loadBuilder pb w1 = some { actions := b.actions ++ cs.map Call.step }
      ∧ w1.persons = w.persons ∧ w1.stdout = w.stdout
      ∧ w1.builders.length = w.builders.length
      ∧ ∀ q, q ≠ pb → loadBuilder q w1 = loadBuilder q w := by
  induction cs generalizing w b with
  | nil => exact ⟨w, rfl, by simpa using h, rfl, rfl, rfl, fun _ _ => rfl⟩
  | cons c rest ih =>
    obtain ⟨w1, hrun, hb1, hp1, ho1, hl1, hq1⟩ := Call_run_eq c pb w b h
    obtain ⟨w2, hch, hb2, hp2, ho2, hl2, hq2⟩ := ih w1 _ hb1
    refine ⟨w2, by simp [chain, hrun, hch], ?_, hp2.trans hp1, ho2.trans ho1,
      hl2.trans hl1, fun q hq => (hq2 q hq).trans (hq1 q hq)⟩
    simpa [List.append_assoc] using hb2

/-- The closures recorded by a call sequence have the effect of the field
assignments the calls stand for. -/
theorem foldl_effect_step (cs : List Call) (r : Person) :
    (cs.map Call.step).foldl PersonModifier.effect r = cs.foldl Call.assign r := by
  induction cs generalizing r with
  | nil => rfl
  | cons c rest ih =>
    cases c <;> simp [Call.step, PersonModifier.effect, Call.assign, ih]

theorem loadBuilder_new (w : World) :
    loadBuilder (NewPersonBuilder w).1 (NewPersonBuilder w).2 = some { actions := [] } := by
  simp [NewPersonBuilder, allocBuilder, loadBuilder, List.getElem?_concat_length]

/-- A field update through a live pointer succeeds and rewrites that cell only. -/
theorem storePerson_live (a : Nat) (w : World) (f : Person → Person)
    (ha : a < w.persons.length) :
    ∃ r, w.persons[a]? = some r
      ∧ storePerson (some a) f w = some { w with persons := w.persons.set a (f r) } := by
  refine ⟨w.persons[a], List.getElem?_eq_getElem ha, ?_⟩
  simp [storePerson, List.getElem?_eq_getElem ha]

theorem loadPerson_set_ne (q : Ptr) (a : Nat) (x : Person) (w : World) (hq : q ≠ some a) :
    loadPerson q { w with persons := w.persons.set a x } = loadPerson q w := by
  cases q with
  | none => rfl
  | some a1 =>
    have hne : a ≠ a1 := fun e => hq (by rw [e])
    simp [loadPerson, hne]

/-- Reading a builder looks at the builder heap only. -/
theorem loadBuilder_congr (pb : Ptr) (w1 w2 : World) (hb : w1.builders = w2.builders) :
    loadBuilder pb w1 = loadBuilder pb w2 := by
  cases pb with
  | none => rfl
  | some a => simp [loadBuilder, hb]

/-- Invariant of client programs: the held pointers are pairwise distinct
live addresses, all at or above the size `n0` the `Person` heap had at the
start; the builder holds its earlier steps followed by the configured ones;
the cells below `n0` keep their content. -/
theorem runClient_inv (pb : Ptr) (n0 : Nat) (ops : List ClientOp) :
    ∀ (w : World) (rs : List Ptr) (b : PersonBuilder),
      loadBuilder pb w = some b → wellScoped ops rs.length = true →
      n0 ≤ w.persons.length → rs.Nodup →
      (∀ p ∈ rs, ∃ a, p = some a ∧ n0 ≤ a ∧ a < w.persons.length) →
      ∃ w1 rs1, runClient ops pb w rs = some (w1, rs1)
        ∧ rs1.Nodup
        ∧ (∀ p ∈ rs1, ∃ a, p = some a ∧ n0 ≤ a ∧ a < w1.persons.length)
        ∧ loadBuilder pb w1
            = some { actions := b.actions ++ (configured ops).map Call.step }
        ∧ (∀ a, a < n0 → w1.persons[a]? = w.persons[a]?) := by
  induction ops with
  | nil =>
    intro w rs b h _ _ hnd hlive
    exact ⟨w, rs, rfl, hnd, hlive, by simpa [configured] using h, fun _ _ => rfl⟩
  | cons op rest ih =>
    intro w rs b h hs hn hnd hlive
    cases op with
    | configure c =>
      obtain ⟨w1, hrun, hb1, hp1, -⟩ := Call_run_eq c pb w b h
      have hs1 : wellScoped rest rs.length = true := by simpa [wellScoped] using hs
      obtain ⟨w2, rs2, hrest, hnd2, hlive2, hb2, hold2⟩ :=
        ih w1 rs _ hb1 hs1 (by rw [hp1]; exact hn) hnd (by rw [hp1]; exact hlive)
      refine ⟨w2, rs2, by simp [runClient, ClientOp.run, hrun, hrest], hnd2, hlive2, ?_, ?_⟩
      · simpa [configured, List.append_assoc] using hb2
      · intro a ha
        rw [hold2 a ha, hp1]
    | build =>
      have hbuild := Build_eq pb w b h
      have hs1 : wellScoped rest (rs ++ [some w.persons.length]).length = true := by
        simpa [wellScoped] using hs
      have hfresh : (some w.persons.length : Ptr) ∉ rs := by
        intro hmem
        obtain ⟨a, ha, -, hlt⟩ := hlive _ hmem
        cases ha
        exact Nat.lt_irrefl _ hlt
      obtain ⟨w2, rs2, hrest, hnd2, hlive2, hb2, hold2⟩ :=
        ih { persons := w.persons ++ [b.actions.foldl PersonModifier.effect Person.zero],
             builders := w.builders,
             stdout := w.stdout ++ b.actions.map PersonModifier.message }
          (rs ++ [some w.persons.length]) b
          ((loadBuilder_congr pb _ w rfl).trans h) hs1
          (by simp only [List.length_append, List.length_singleton]; omega)
          (by
            rw [List.nodup_append]
            refine ⟨hnd, List.nodup_singleton _, ?_⟩
            intro x hx hx1
            rw [List.mem_singleton] at hx1
            subst hx1
            exact hfresh hx)
          (by
            intro q hq
            rw [List.mem_append, List.mem_singleton] at hq
            simp only [List.length_append, List.length_singleton]
            rcases hq with hq | hq
            · obtain ⟨a, ha, h1, h2⟩ := hlive q hq
              exact ⟨a, ha, h1, by omega⟩
            · exact ⟨w.persons.length, hq, hn, by omega⟩)
      refine ⟨w2, rs2, by simp [runClient, ClientOp.run, hbuild, hrest], hnd2, hlive2, ?_, ?_⟩
      · simpa [configured] using hb2
      · intro a ha
        rw [hold2 a ha]
        exact List.getElem?_append_left (by omega)
    | write k fw =>
      have hs0 : k < rs.length ∧ wellScoped rest rs.length = true := by
        simpa [wellScoped] using hs
      obtain ⟨a, hk, hn0, hlt⟩ := hlive _ (List.getElem_mem hs0.1)
      obtain ⟨r, -, hstore⟩ := storePerson_live a w fw.apply hlt
      have hget : rs[k]? = some (some a) := by
        rw [List.getElem?_eq_getElem hs0.1, hk]
      obtain ⟨w2, rs2, hrest, hnd2, hlive2, hb2, hold2⟩ :=
        ih { w with persons := w.persons.set a (fw.apply r) } rs b
          ((loadBuilder_congr pb _ w rfl).trans h) hs0.2
          (by simpa using hn) hnd (by simpa using hlive)
      refine ⟨w2, rs2, by simp [runClient, ClientOp.run, hget, hstore, hrest], hnd2, hlive2,
        ?_, ?_⟩
      · simpa [configured] using hb2
      · intro a1 ha1
        rw [hold2 a1 ha1]
        have hne : a ≠ a1 := by omega
        simp [hne]

/-- A method called through a nil `*PersonBuilder` panics: the embedding
does fail where the program does. -/
theorem nil_receiver_panics (w : World) (name address city : String) :
    Called none name w = none ∧ LivesAt none address city w = none ∧ Build none w = none := by
  simp [Called, LivesAt, Build, storeBuilder, loadBuilder, allocPerson]

/-! ## Contract of the functional builder -/

/-- C1: for every sequence of configuration calls `cs` chained on a builder
returned by `NewPersonBuilder` (in any state `w`), `Build` succeeds and the
record it returns is the one obtained from the all-empty `Person` by applying
the field assignments of the calls in the order they were made. -/
theorem build_replays_calls_in_order (w : World) (cs : List Call) :
    chainBuild cs (NewPersonBuilder w).1 (NewPersonBuilder w).2 = some (specBuild cs) := by
  obtain ⟨w1, hch, hb, -⟩ := chain_eq cs _ _ _ (loadBuilder_new w)
  simp [chainBuild, hch, buildRecord_eq _ _ _ hb, foldl_effect_step, specBuild]

/-- C2: on every builder `b` at `pb` (whatever steps it already holds), the
record built after `Called(a).Called(b2)` has `Name = b2`, and the record
built after `LivesAt(a1, c1).LivesAt(a2, c2)` has `Address = a2` and
`City = c2`: the later call wins. -/
theorem later_call_wins (w : World) (pb : Ptr) (b : PersonBuilder)
    (h : loadBuilder pb w = some b) (a b2 a1 c1 a2 c2 : String) :
    (∃ pb1 w1 pb2 w2 r, Called pb a w = some (pb1, w1) ∧ Called pb1 b2 w1 = some (pb2, w2)
        ∧ buildRecord pb2 w2 = some r ∧ r.Name = b2)
    ∧ (∃ pb1 w1 pb2 w2 r, LivesAt pb a1 c1 w = some (pb1, w1)
        ∧ LivesAt pb1 a2 c2 w1 = some (pb2, w2)
        ∧ buildRecord pb2 w2 = some r ∧ r.Address = a2 ∧ r.City = c2) := by
  constructor
  · obtain ⟨w1, h1, hb1, -⟩ := Call_run_eq (.called a) pb w b h
    obtain ⟨w2, h2, hb2, -⟩ := Call_run_eq (.called b2) pb w1 _ hb1
    refine ⟨pb, w1, pb, w2, _, h1, h2, buildRecord_eq _ _ _ hb2, ?_⟩
    simp [Call.step, List.foldl_append, PersonModifier.effect]
  · obtain ⟨w1, h1, hb1, -⟩ := Call_run_eq (.livesAt a1 c1) pb w b h
    obtain ⟨w2, h2, hb2, -⟩ := Call_run_eq (.livesAt a2 c2) pb w1 _ hb1
    refine ⟨pb, w1, pb, w2, _, h1, h2, buildRecord_eq _ _ _ hb2, ?_⟩
    simp [Call.step, List.foldl_append, PersonModifier.effect]

/-- Instance of `later_call_wins` on the two-step builder of `sampleWorld`. -/
theorem later_call_wins_witness :
    loadBuilder (some 1) sampleWorld = some sampleBuilder
    ∧ (∃ pb1 w1 pb2 w2 r, Called (some 1) "A" sampleWorld = some (pb1, w1)
        ∧ Called pb1 "B" w1 = some (pb2, w2)
        ∧ buildRecord pb2 w2 = some r ∧ r.Name = "B")
    ∧ (∃ pb1 w1 pb2 w2 r, LivesAt (some 1) "1 A St" "Ayr" sampleWorld = some (pb1, w1)
        ∧ LivesAt pb1 "2 B St" "Bath" w1 = some (pb2, w2)
        ∧ buildRecord pb2 w2 = some r ∧ r.Address = "2 B St" ∧ r.City = "Bath") :=
  ⟨by decide,
   later_call_wins sampleWorld (some 1) sampleBuilder (by decide)
     "A" "B" "1 A St" "Ayr" "2 B St" "Bath"⟩

/-- C3: `NewPersonBuilder().Build()` does not fail, and the `Person` it
returns has `Name`, `Address` and `City` all equal to the empty string. -/
theorem empty_builder_builds_zero_person (w : World) :
    ∃ p w1, Build (NewPersonBuilder w).1 (NewPersonBuilder w).2 = some (p, w1)
      ∧ loadPerson p w1 = some { Name := "", Address := "", City := "" } := by
  refine ⟨_, _, Build_eq _ _ _ (loadBuilder_new w), ?_⟩
  simp [loadPerson, NewPersonBuilder, allocBuilder, List.getElem?_concat_length, Person.zero]

/-- C4: `NewPersonBuilder().Called(n).LivesAt(a, c).Build()` returns the
record `Person{Name: n, Address: a, City: c}` for all strings `n`, `a`, `c`;
in particular the chain of `main` returns
`Person{"John Doe", "123 Main St", "Anytown"}`. -/
theorem called_livesAt_build (w : World) :
    (∀ n a c : String, ∃ pb1 w1 pb2 w2,
        Called (NewPersonBuilder w).1 n (NewPersonBuilder w).2 = some (pb1, w1)
        ∧ LivesAt pb1 a c w1 = some (pb2, w2)
        ∧ buildRecord pb2 w2 = some { Name := n, Address := a, City := c })
    ∧ chainBuild [.called "John Doe", .livesAt "123 Main St" "Anytown"]
        (NewPersonBuilder w).1 (NewPersonBuilder w).2
        = some { Name := "John Doe", Address := "123 Main St", City := "Anytown" } := by
  constructor
  · intro n a c
    obtain ⟨w1, h1, hb1, -⟩ := Call_run_eq (.called n) _ _ _ (loadBuilder_new w)
    obtain ⟨w2, h2, hb2, -⟩ := Call_run_eq (.livesAt a c) _ w1 _ hb1
    refine ⟨_, w1, _, w2, h1, h2, ?_⟩
    rw [buildRecord_eq _ _ _ hb2]
    simp [Call.step, PersonModifier.effect, Person.zero]
  · obtain ⟨w1, hch, hb, -⟩ := chain_eq [.called "John Doe", .livesAt "123 Main St" "Anytown"]
      _ _ _ (loadBuilder_new w)
    simp [chainBuild, hch, buildRecord_eq _ _ _ hb, Call.step, PersonModifier.effect,
      Person.zero]

/-- C5: a configuration call on a builder `b` at `pb` returns the pointer
`pb` itself, allocates no builder, and leaves at `pb` the step sequence of
`b` followed by exactly one new step: the length grows by one and every
earlier step stays at its position. -/
theorem configure_appends_one_step (w : World) (pb : Ptr) (b : PersonBuilder)
    (h : loadBuilder pb w = some b) :
    (∀ name, ∃ w1 b1, Called pb name w = some (pb, w1)
        ∧ w1.builders.length = w.builders.length
        ∧ loadBuilder pb w1 = some b1
        ∧ b1.actions = b.actions ++ [.calledFn name]
        ∧ b1.actions.length = b.actions.length + 1
        ∧ ∀ i, i < b.actions.length → b1.actions[i]? = b.actions[i]?)
    ∧ (∀ address city, ∃ w1 b1, LivesAt pb address city w = some (pb, w1)
        ∧ w1.builders.length = w.builders.length
        ∧ loadBuilder pb w1 = some b1
        ∧ b1.actions = b.actions ++ [.livesAtFn address city]
        ∧ b1.actions.length = b.actions.length + 1
        ∧ ∀ i, i < b.actions.length → b1.actions[i]? = b.actions[i]?) := by
  constructor
  · intro name
    obtain ⟨w1, h1, hb1, -, -, hl, -⟩ := Call_run_eq (.called name) pb w b h
    refine ⟨w1, _, h1, hl, hb1, rfl, by simp, ?_⟩
    intro i hi
    exact List.getElem?_append_left hi
  · intro address city
    obtain ⟨w1, h1, hb1, -, -, hl, -⟩ := Call_run_eq (.livesAt address city) pb w b h
    refine ⟨w1, _, h1, hl, hb1, rfl, by simp, ?_⟩
    intro i hi
    exact List.getElem?_append_left hi

/-- Instance of `configure_appends_one_step` on the two-step builder of
`sampleWorld`. -/
theorem configure_appends_one_step_witness :
    loadBuilder (some 1) sampleWorld = some sampleBuilder
    ∧ (∀ name, ∃ w1 b1, Called (some 1) name sampleWorld = some (some 1, w1)
        ∧ w1.builders.length = sampleWorld.builders.length
        ∧ loadBuilder (some 1) w1 = some b1
        ∧ b1.actions = sampleBuilder.actions ++ [.calledFn name]
        ∧ b1.actions.length = sampleBuilder.actions.length + 1
        ∧ ∀ i, i < sampleBuilder.actions.length → b1.actions[i]? = sampleBuilder.actions[i]?)
    ∧ (∀ address city, ∃ w1 b1, LivesAt (some 1) address city sampleWorld = some (some 1, w1)
        ∧ w1.builders.length = sampleWorld.builders.length
        ∧ loadBuilder (some 1) w1 = some b1
        ∧ b1.actions = sampleBuilder.actions ++ [.livesAtFn address city]
        ∧ b1.actions.length = sampleBuilder.actions.length + 1
        ∧ ∀ i, i < sampleBuilder.actions.length → b1.actions[i]? = sampleBuilder.actions[i]?) :=
  ⟨by decide, configure_appends_one_step sampleWorld (some 1) sampleBuilder (by decide)⟩

/-- C6: configuration is deferred.  Any chain `cs` of `Called` and `LivesAt`
calls on a builder `b` at `pb` succeeds and leaves the heap of `Person`
objects and the standard output exactly as they were: no record is created
or mutated and nothing is printed.  The recorded steps run inside the
following `Build`, which allocates the one new record and prints one line
per recorded step, in recording order. -/
theorem configuration_is_deferred (w : World) (pb : Ptr) (b : PersonBuilder)
    (h : loadBuilder pb w = some b) (cs : List Call) :
    ∃ w1, chain cs pb w = some (pb, w1)
      ∧ w1.persons = w.persons
      ∧ w1.stdout = w.stdout
      ∧ ∃ p w2, Build pb w1 = some (p, w2)
          ∧ w2.persons.length = w1.persons.length + 1
          ∧ w2.stdout
              = w1.stdout ++ (b.actions ++ cs.map Call.step).map PersonModifier.message := by
  obtain ⟨w1, hch, hb, hp, ho, -⟩ := chain_eq cs pb w b h
  refine ⟨w1, hch, hp, ho, _, _, Build_eq pb w1 _ hb, by simp, rfl⟩

/-- Instance of `configuration_is_deferred`: two more calls on the two-step
builder of `sampleWorld`. -/
theorem configuration_is_deferred_witness :
    loadBuilder (some 1) sampleWorld = some sampleBuilder
    ∧ ∃ w1, chain [.called "Eve", .livesAt "3 Mid Ln" "Bonn"] (some 1) sampleWorld
          = some (some 1, w1)
      ∧ w1.persons = sampleWorld.persons
      ∧ w1.stdout = sampleWorld.stdout
      ∧ ∃ p w2, Build (some 1) w1 = some (p, w2)
          ∧ w2.persons.length = w1.persons.length + 1
          ∧ w2.stdout
              = w1.stdout ++ (sampleBuilder.actions
                  ++ [Call.called "Eve", Call.livesAt "3 Mid Ln" "Bonn"].map Call.step).map
                    PersonModifier.message :=
  ⟨by decide,
   configuration_is_deferred sampleWorld (some 1) sampleBuilder (by decide)
     [.called "Eve", .livesAt "3 Mid Ln" "Bonn"]⟩

/-- C7: two `Build` calls on a builder `b` at `pb` with no configuration
call in between both succeed, and the two records they return have the same
`Name`, the same `Address` and the same `City`. -/
theorem build_twice_equal_fields (w : World) (pb : Ptr) (b : PersonBuilder)
    (h : loadBuilder pb w = some b) :
    ∃ p1 w1 p2 w2 r1 r2, Build pb w = some (p1, w1) ∧ Build pb w1 = some (p2, w2)
      ∧ loadPerson p1 w1 = some r1 ∧ loadPerson p1 w2 = some r1
      ∧ loadPerson p2 w2 = some r2
      ∧ r1.Name = r2.Name ∧ r1.Address = r2.Address ∧ r1.City = r2.City := by
  have h1 := Build_eq pb w b h
  have hb1 : loadBuilder pb
      { persons := w.persons ++ [b.actions.foldl PersonModifier.effect Person.zero],
        builders := w.builders,
        stdout := w.stdout ++ b.actions.map PersonModifier.message } = some b := by
    cases pb with
    | none => simp [loadBuilder] at h
    | some a => simpa [loadBuilder] using h
  have h2 := Build_eq pb _ b hb1
  refine ⟨_, _, _, _, b.actions.foldl PersonModifier.effect Person.zero,
    b.actions.foldl PersonModifier.effect Person.zero, h1, h2, ?_, ?_, ?_, rfl, rfl, rfl⟩
  · simp [loadPerson, List.getElem?_concat_length]
  · show ((w.persons ++ [_]) ++ [_])[w.persons.length]? = some _
    rw [List.append_assoc]
    exact getElem?_append_cons_length _ _ _
  · exact List.getElem?_concat_length _ _

/-- Instance of `build_twice_equal_fields` on the two-step builder of
`sampleWorld`. -/
theorem build_twice_equal_fields_witness :
    loadBuilder (some 1) sampleWorld = some sampleBuilder
    ∧ ∃ p1 w1 p2 w2 r1 r2, Build (some 1) sampleWorld = some (p1, w1)
      ∧ Build (some 1) w1 = some (p2, w2)
      ∧ loadPerson p1 w1 = some r1 ∧ loadPerson p1 w2 = some r1
      ∧ loadPerson p2 w2 = some r2
      ∧ r1.Name = r2.Name ∧ r1.Address = r2.Address ∧ r1.City = r2.City :=
  ⟨by decide, build_twice_equal_fields sampleWorld (some 1) sampleBuilder (by decide)⟩

/-- C8: for every well-scoped client program run on a builder `b` at `pb`
(configuration calls, `Build` calls, and field assignments through records
already built, in any order), every pointer returned by `Build` is a
brand-new object: the returned pointers are pairwise distinct, none was an
object of the heap before, and the records that existed before keep their
content.  The builder holds no reference to them: its state and the record a
later `Build` returns are determined by the recorded steps alone, whatever
was assigned to the returned records; and an assignment through one returned
record changes no other returned record. -/
theorem build_returns_independent_records (w : World) (pb : Ptr) (b : PersonBuilder)
    (h : loadBuilder pb w = some b) (ops : List ClientOp) (hs : wellScoped ops 0 = true) :
    ∃ w1 rs, runClient ops pb w [] = some (w1, rs)
      ∧ rs.Nodup
      ∧ (∀ p ∈ rs, loadPerson p w = none ∧ (loadPerson p w1).isSome = true)
      ∧ (∀ q r, loadPerson q w = some r → loadPerson q w1 = some r)
      ∧ loadBuilder pb w1 = some { actions := b.actions ++ (configured ops).map Call.step }
      ∧ buildRecord pb w1
          = some ((b.actions ++ (configured ops).map Call.step).foldl
              PersonModifier.effect Person.zero)
      ∧ ∀ (k : Nat) (p : Ptr) (fw : FieldWrite), rs[k]? = some p →
          ∃ w2, storePerson p fw.apply w1 = some w2
            ∧ w2.builders = w1.builders
            ∧ (∀ j q, j ≠ k → rs[j]? = some q → loadPerson q w2 = loadPerson q w1)
            ∧ buildRecord pb w2 = buildRecord pb w1 := by
  obtain ⟨w1, rs, hrun, hnd, hlive, hb1, hold⟩ :=
    runClient_inv pb w.persons.length ops w [] b h hs (Nat.le_refl _) List.nodup_nil
      (by intro p hp; cases hp)
  refine ⟨w1, rs, hrun, hnd, ?_, ?_, hb1, buildRecord_eq pb w1 _ hb1, ?_⟩
  · intro p hp
    obtain ⟨a, rfl, hge, hlt⟩ := hlive p hp
    constructor
    · exact List.getElem?_eq_none hge
    · simp [loadPerson, List.getElem?_eq_getElem hlt]
  · intro q r hq
    cases q with
    | none => simp [loadPerson] at hq
    | some a =>
      simp only [loadPerson] at hq
      have ha : a < w.persons.length := (List.getElem?_eq_some.mp hq).1
      simp only [loadPerson]
      rw [hold a ha, hq]
  · intro k p fw hk
    obtain ⟨a, rfl, -, hlt⟩ := hlive p (List.getElem?_mem hk)
    obtain ⟨r, -, hstore⟩ := storePerson_live a w1 fw.apply hlt
    refine ⟨_, hstore, rfl, ?_, ?_⟩
    · intro j q hj hq
      apply loadPerson_set_ne
      intro hqa
      have hjlt : j < rs.length := (List.getElem?_eq_some.mp hq).1
      exact hj (List.getElem?_inj hjlt hnd (by rw [hq, hk, hqa]))
    · rw [buildRecord_eq pb w1 _ hb1]
      exact buildRecord_eq pb _ _ ((loadBuilder_congr pb _ w1 rfl).trans hb1)

/-- Instance of `build_returns_independent_records`: `sampleClient` on the
two-step builder of `sampleWorld`. -/
theorem build_returns_independent_records_witness :
    loadBuilder (some 1) sampleWorld = some sampleBuilder
    ∧ wellScoped sampleClient 0 = true
    ∧ ∃ w1 rs, runClient sampleClient (some 1) sampleWorld [] = some (w1, rs)
      ∧ rs.Nodup
      ∧ (∀ p ∈ rs, loadPerson p sampleWorld = none ∧ (loadPerson p w1).isSome = true)
      ∧ (∀ q r, loadPerson q sampleWorld = some r → loadPerson q w1 = some r)
      ∧ loadBuilder (some 1) w1
          = some { actions := sampleBuilder.actions ++ (configured sampleClient).map Call.step }
      ∧ buildRecord (some 1) w1
          = some ((sampleBuilder.actions ++ (configured sampleClient).map Call.step).foldl
              PersonModifier.effect Person.zero)
      ∧ ∀ (k : Nat) (p : Ptr) (fw : FieldWrite), rs[k]? = some p →
          ∃ w2, storePerson p fw.apply w1 = some w2
            ∧ w2.builders = w1.builders
            ∧ (∀ j q, j ≠ k → rs[j]? = some q → loadPerson q w2 = loadPerson q w1)
            ∧ buildRecord (some 1) w2 = buildRecord (some 1) w1 :=
  ⟨by decide, by decide,
   build_returns_independent_records sampleWorld (some 1) sampleBuilder (by decide)
     sampleClient (by decide)⟩

/-- C9: `Build` only reads the builder.  On every builder `b` at `pb`, one
`Build`, and likewise any number `n` of `Build` calls in a row, leaves the
whole builder heap as it was, so `pb` still holds exactly the steps of `b`;
afterwards every configuration call on `pb` still succeeds and appends its
step to them. -/
theorem build_only_reads_builder (w : World) (pb : Ptr) (b : PersonBuilder)
    (h : loadBuilder pb w = some b) :
    (∃ p w1, Build pb w = some (p, w1) ∧ w1.builders = w.builders
        ∧ loadBuilder pb w1 = some b)
    ∧ ∀ n, ∃ w1, buildTimes n pb w = some w1 ∧ w1.builders = w.builders
        ∧ loadBuilder pb w1 = some b
        ∧ ∀ c : Call, ∃ w2, c.run pb w1 = some (pb, w2)
            ∧ loadBuilder pb w2 = some { actions := b.actions ++ [c.step] } := by
  constructor
  · exact ⟨_, _, Build_eq pb w b h, rfl, (loadBuilder_congr pb _ w rfl).trans h⟩
  · intro n
    induction n generalizing w with
    | zero =>
      refine ⟨w, rfl, rfl, h, fun c => ?_⟩
      obtain ⟨w2, h2, hb2, -⟩ := Call_run_eq c pb w b h
      exact ⟨w2, h2, hb2⟩
    | succ k ih =>
      obtain ⟨w1, h1, hbs, hb1, hc⟩ :=
        ih { persons := w.persons ++ [b.actions.foldl PersonModifier.effect Person.zero],
             builders := w.builders,
             stdout := w.stdout ++ b.actions.map PersonModifier.message }
          ((loadBuilder_congr pb _ w rfl).trans h)
      exact ⟨w1, by simp [buildTimes, Build_eq pb w b h, h1], hbs, hb1, hc⟩

/-- Instance of `build_only_reads_builder` on the two-step builder of
`sampleWorld`. -/
theorem build_only_reads_builder_witness :
    loadBuilder (some 1) sampleWorld = some sampleBuilder
    ∧ (∃ p w1, Build (some 1) sampleWorld = some (p, w1)
        ∧ w1.builders = sampleWorld.builders
        ∧ loadBuilder (some 1) w1 = some sampleBuilder)
    ∧ ∀ n, ∃ w1, buildTimes n (some 1) sampleWorld = some w1
        ∧ w1.builders = sampleWorld.builders
        ∧ loadBuilder (some 1) w1 = some sampleBuilder
        ∧ ∀ c : Call, ∃ w2, c.run (some 1) w1 = some (some 1, w2)
            ∧ loadBuilder (some 1) w2 = some { actions := sampleBuilder.actions ++ [c.step] } :=
  ⟨by decide, build_only_reads_builder sampleWorld (some 1) sampleBuilder (by decide)⟩

/-- C10: every operation is total.  `NewPersonBuilder` is a function of the
state and returns a live, empty builder, and every chain of calls on it
followed by `Build` returns, whatever its length; on every builder `b` at
`pb`, whatever the number of steps it holds, `Called` and `LivesAt` return
for all string arguments, and `Build` returns a pointer to a record. -/
theorem operations_are_total (w : World) (pb : Ptr) (b : PersonBuilder)
    (h : loadBuilder pb w = some b) :
    (∀ w0, loadBuilder (NewPersonBuilder w0).1 (NewPersonBuilder w0).2 = some { actions := [] })
    ∧ (∀ w0 cs, ∃ pb1 w1 p w2 r,
        chain cs (NewPersonBuilder w0).1 (NewPersonBuilder w0).2 = some (pb1, w1)
        ∧ Build pb1 w1 = some (p, w2) ∧ loadPerson p w2 = some r)
    ∧ (∀ name, ∃ w1, Called pb name w = some (pb, w1))
    ∧ (∀ address city, ∃ w1, LivesAt pb address city w = some (pb, w1))
    ∧ ∃ p w1 r, Build pb w = some (p, w1) ∧ loadPerson p w1 = some r := by
  refine ⟨loadBuilder_new, fun w0 cs => ?_, fun name => ?_, fun address city => ?_, ?_⟩
  · obtain ⟨w1, hch, hb1, -⟩ := chain_eq cs _ _ _ (loadBuilder_new w0)
    exact ⟨_, w1, _, _, _, hch, Build_eq _ w1 _ hb1, List.getElem?_concat_length _ _⟩
  · obtain ⟨w1, h1, -⟩ := Call_run_eq (.called name) pb w b h
    exact ⟨w1, h1⟩
  · obtain ⟨w1, h1, -⟩ := Call_run_eq (.livesAt address city) pb w b h
    exact ⟨w1, h1⟩
  · exact ⟨_, _, b.actions.foldl PersonModifier.effect Person.zero, Build_eq pb w b h,
      List.getElem?_concat_length _ _⟩

/-- Instance of `operations_are_total` on the two-step builder of
`sampleWorld`. -/
theorem operations_are_total_witness :
    loadBuilder (some 1) sampleWorld = some sampleBuilder
    ∧ (∀ w0, loadBuilder (NewPersonBuilder w0).1 (NewPersonBuilder w0).2
        = some { actions := [] })
    ∧ (∀ w0 cs, ∃ pb1 w1 p w2 r,
        chain cs (NewPersonBuilder w0).1 (NewPersonBuilder w0).2 = some (pb1, w1)
        ∧ Build pb1 w1 = some (p, w2) ∧ loadPerson p w2 = some r)
    ∧ (∀ name, ∃ w1, Called (some 1) name sampleWorld = some (some 1, w1))
    ∧ (∀ address city, ∃ w1, LivesAt (some 1) address city sampleWorld = some (some 1, w1))
    ∧ ∃ p w1 r, Build (some 1) sampleWorld = some (p, w1) ∧ loadPerson p w1 = some r :=
  ⟨by decide, operations_are_total sampleWorld (some 1) sampleBuilder (by decide)⟩

/-! ## Behaviour of the functional builder -/

/-- Folding the field assignments of `cs` over `r`: the name is the argument
of the last `Called`, the address and city are those of the last `LivesAt`,
and a field no call writes keeps the value it has in `r`. -/
theorem foldl_assign_last (cs : List Call) (r : Person) :
    (cs.foldl Call.assign r).Name = (lastCalled cs).getD r.Name
      ∧ ((cs.foldl Call.assign r).Address, (cs.foldl Call.assign r).City)
          = (lastLivesAt cs).getD (r.Address, r.City) := by
  induction cs using List.reverseRecOn with
  | nil => simp [lastCalled, lastLivesAt]
  | append_singleton cs c ih =>
    cases c with
    | called name =>
      simp [List.foldl_append, Call.assign, lastCalled, lastLivesAt] at ih ⊢
      exact ih.2
    | livesAt address city =>
      simp [List.foldl_append, Call.assign, lastCalled, lastLivesAt] at ih ⊢
      exact ih.1

/-- C12: last-writer characterisation.  For every sequence `cs` of `Called`
and `LivesAt` calls on a fresh builder, `Build` succeeds; the `Name` of the
built record is the argument of the last `Called` call of `cs`, or the empty
string if there is none, and its `(Address, City)` pair is the argument pair
of the last `LivesAt` call of `cs`, or `("", "")` if there is none. -/
theorem last_writer_characterisation (w : World) (cs : List Call) :
    ∃ r, chainBuild cs (NewPersonBuilder w).1 (NewPersonBuilder w).2 = some r
      ∧ r.Name = (lastCalled cs).getD ""
      ∧ (r.Address, r.City) = (lastLivesAt cs).getD ("", "") := by
  obtain ⟨w1, hch, hb, -⟩ := chain_eq cs _ _ _ (loadBuilder_new w)
  refine ⟨cs.foldl Call.assign Person.zero, ?_, (foldl_assign_last cs Person.zero).1,
    (foldl_assign_last cs Person.zero).2⟩
  simp [chainBuild, hch, buildRecord_eq _ _ _ hb, foldl_effect_step]

/-- C13: `Called` and `LivesAt` write disjoint fields.  On every builder `b`
at `pb`, the record built after `Called(n).LivesAt(a, c)` and the record
built after `LivesAt(a, c).Called(n)` have the same `Name`, `Address` and
`City`; the record built after one more `Called(n)` has the `Address` and
`City` of the record built from the steps of `b` alone, and the record built
after one more `LivesAt(a, c)` has its `Name`. -/
theorem called_livesAt_commute (w : World) (pb : Ptr) (b : PersonBuilder)
    (h : loadBuilder pb w = some b) (n a c : String) :
    (∃ pb1 w1 pb2 w2 r pb3 w3 pb4 w4 r',
        Called pb n w = some (pb1, w1) ∧ LivesAt pb1 a c w1 = some (pb2, w2)
        ∧ buildRecord pb2 w2 = some r
        ∧ LivesAt pb a c w = some (pb3, w3) ∧ Called pb3 n w3 = some (pb4, w4)
        ∧ buildRecord pb4 w4 = some r'
        ∧ r.Name = r'.Name ∧ r.Address = r'.Address ∧ r.City = r'.City)
    ∧ (∃ r0 pb1 w1 r1, buildRecord pb w = some r0 ∧ Called pb n w = some (pb1, w1)
        ∧ buildRecord pb1 w1 = some r1
        ∧ r1.Name = n ∧ r1.Address = r0.Address ∧ r1.City = r0.City)
    ∧ (∃ r0 pb1 w1 r1, buildRecord pb w = some r0 ∧ LivesAt pb a c w = some (pb1, w1)
        ∧ buildRecord pb1 w1 = some r1
        ∧ r1.Name = r0.Name ∧ r1.Address = a ∧ r1.City = c) := by
  obtain ⟨w1, h1, hb1, -⟩ := Call_run_eq (.called n) pb w b h
  obtain ⟨w2, h2, hb2, -⟩ := Call_run_eq (.livesAt a c) pb w1 _ hb1
  obtain ⟨w3, h3, hb3, -⟩ := Call_run_eq (.livesAt a c) pb w b h
  obtain ⟨w4, h4, hb4, -⟩ := Call_run_eq (.called n) pb w3 _ hb3
  refine ⟨⟨pb, w1, pb, w2, _, pb, w3, pb, w4, _, h1, h2, buildRecord_eq _ _ _ hb2, h3, h4,
      buildRecord_eq _ _ _ hb4, ?_, ?_, ?_⟩,
    ⟨_, pb, w1, _, buildRecord_eq _ _ _ h, h1, buildRecord_eq _ _ _ hb1, ?_, ?_, ?_⟩,
    ⟨_, pb, w3, _, buildRecord_eq _ _ _ h, h3, buildRecord_eq _ _ _ hb3, ?_, ?_, ?_⟩⟩ <;>
  simp [Call.step, List.foldl_append, PersonModifier.effect]

/-- Instance of `called_livesAt_commute` on the two-step builder of
`sampleWorld`. -/
theorem called_livesAt_commute_witness :
    loadBuilder (some 1) sampleWorld = some sampleBuilder
    ∧ (∃ pb1 w1 pb2 w2 r pb3 w3 pb4 w4 r',
        Called (some 1) "Eve" sampleWorld = some (pb1, w1)
        ∧ LivesAt pb1 "3 Mid Ln" "Bonn" w1 = some (pb2, w2)
        ∧ buildRecord pb2 w2 = some r
        ∧ LivesAt (some 1) "3 Mid Ln" "Bonn" sampleWorld = some (pb3, w3)
        ∧ Called pb3 "Eve" w3 = some (pb4, w4)
        ∧ buildRecord pb4 w4 = some r'
        ∧ r.Name = r'.Name ∧ r.Address = r'.Address ∧ r.City = r'.City)
    ∧ (∃ r0 pb1 w1 r1, buildRecord (some 1) sampleWorld = some r0
        ∧ Called (some 1) "Eve" sampleWorld = some (pb1, w1)
        ∧ buildRecord pb1 w1 = some r1
        ∧ r1.Name = "Eve" ∧ r1.Address = r0.Address ∧ r1.City = r0.City)
    ∧ (∃ r0 pb1 w1 r1, buildRecord (some 1) sampleWorld = some r0
        ∧ LivesAt (some 1) "3 Mid Ln" "Bonn" sampleWorld = some (pb1, w1)
        ∧ buildRecord pb1 w1 = some r1
        ∧ r1.Name = r0.Name ∧ r1.Address = "3 Mid Ln" ∧ r1.City = "Bonn") :=
  ⟨by decide,
   called_livesAt_commute sampleWorld (some 1) sampleBuilder (by decide)
     "Eve" "3 Mid Ln" "Bonn"⟩

end BuilderFuncional

namespace BuilderFluent

/-! ## Lemmas on the fluent primitives -/

/-- The bit pattern `Float64.c75000` is sign 0, exponent field `1023 + 16`
and fraction `(75000 - 2^16) * 2^36`, and it denotes 75000:
`(1 + fraction / 2^52) * 2^16 = 75000`. -/
theorem c75000_denotes_75000 :
    Float64.c75000.bits = (1023 + 16) * 2 ^ 52 + (75000 - 2 ^ 16) * 2 ^ 36
      ∧ (75000 - 2 ^ 16) * 2 ^ 36 < 2 ^ 52
      ∧ (2 ^ 52 + (75000 - 2 ^ 16) * 2 ^ 36) * 2 ^ 16 = 75000 * 2 ^ 52 := by
  decide

/-- A field update through a pointer to a record succeeds and changes that
record only. -/
theorem storePerson_spec (p : Ptr) (f : Person → Person) (w : World) (r : Person)
    (h : loadPerson p w = some r) :
    ∃ w1, storePerson p f w = some w1 ∧ WritesOnly w w1 p (f r) := by
  cases p with
  | none => simp [loadPerson] at h
  | some a =>
    simp only [loadPerson] at h
    have ha : a < w.persons.length := (List.getElem?_eq_some.mp h).1
    refine ⟨{ w with persons := w.persons.set a (f r) }, by simp [storePerson, h],
      ?_, by simp, ?_, rfl, rfl, rfl⟩
    · simp [loadPerson, ha]
    · intro q hq
      cases q with
      | none => rfl
      | some a1 =>
        have hne : a ≠ a1 := fun e => hq (by rw [e])
        simp [loadPerson, hne]

theorem builder_heap_congr (pb : Ptr) (w1 w2 : World) (h : w1.builders = w2.builders) :
    loadBuilder pb w1 = loadBuilder pb w2 := by
  cases pb with
  | none => rfl
  | some a => simp [loadBuilder, h]

theorem loadAddressBuilder_congr (ab : Ptr) (w1 w2 : World)
    (h : w1.addressBuilders = w2.addressBuilders) :
    loadAddressBuilder ab w1 = loadAddressBuilder ab w2 := by
  cases ab with
  | none => rfl
  | some a => simp [loadAddressBuilder, h]

theorem loadJobBuilder_congr (jb : Ptr) (w1 w2 : World)
    (h : w1.jobBuilders = w2.jobBuilders) :
    loadJobBuilder jb w1 = loadJobBuilder jb w2 := by
  cases jb with
  | none => rfl
  | some a => simp [loadJobBuilder, h]

theorem loadPerson_congr (p : Ptr) (w1 w2 : World) (h : w1.persons = w2.persons) :
    loadPerson p w1 = loadPerson p w2 := by
  cases p with
  | none => rfl
  | some a => simp [loadPerson, h]

/-- Method `Called` on a builder with a record. -/
theorem Called_spec (pb : Ptr) (name : String) (w : World) (b : PersonBuilder) (r : Person)
    (hb : loadBuilder pb w = some b) (hr : loadPerson b.person w = some r) :
    ∃ w1, Called pb name w = some (pb, w1)
      ∧ WritesOnly w w1 b.person { r with Name := name } := by
  obtain ⟨w1, hs, hw⟩ := storePerson_spec b.person (fun r => { r with Name := name }) w r hr
  exact ⟨w1, by simp [Called, hb, hs], hw⟩

/-- Method `At` on a sub-builder whose parent has a record. -/
theorem At_spec (ab : Ptr) (address : String) (w : World) (s : PersonAddressBuilder)
    (b : PersonBuilder) (r : Person) (hs : loadAddressBuilder ab w = some s)
    (hb : loadBuilder s.builder w = some b) (hr : loadPerson b.person w = some r) :
    ∃ w1, At ab address w = some (ab, w1)
      ∧ WritesOnly w w1 b.person { r with Address := address } := by
  obtain ⟨w1, hst, hw⟩ :=
    storePerson_spec b.person (fun r => { r with Address := address }) w r hr
  exact ⟨w1, by simp [At, hs, hb, hst], hw⟩

/-- Method `WithPostcode` on a sub-builder whose parent has a record. -/
theorem WithPostcode_spec (ab : Ptr) (postcode : String) (w : World)
    (s : PersonAddressBuilder) (b : PersonBuilder) (r : Person)
    (hs : loadAddressBuilder ab w = some s)
    (hb : loadBuilder s.builder w = some b) (hr : loadPerson b.person w = some r) :
    ∃ w1, WithPostcode ab postcode w = some (ab, w1)
      ∧ WritesOnly w w1 b.person { r with Postcode := postcode } := by
  obtain ⟨w1, hst, hw⟩ :=
    storePerson_spec b.person (fun r => { r with Postcode := postcode }) w r hr
  exact ⟨w1, by simp [WithPostcode, hs, hb, hst], hw⟩

/-- Method `In` on a sub-builder whose parent has a record: the parent
comes back. -/
theorem In_spec (ab : Ptr) (city : String) (w : World) (s : PersonAddressBuilder)
    (b : PersonBuilder) (r : Person) (hs : loadAddressBuilder ab w = some s)
    (hb : loadBuilder s.builder w = some b) (hr : loadPerson b.person w = some r) :
    ∃ w1, In ab city w = some (s.builder, w1)
      ∧ WritesOnly w w1 b.person { r with City := city } := by
  obtain ⟨w1, hst, hw⟩ :=
    storePerson_spec b.person (fun r => { r with City := city }) w r hr
  have hs1 : loadAddressBuilder ab w1 = some s :=
    (loadAddressBuilder_congr ab w1 w hw.2.2.2.2.1).trans hs
  exact ⟨w1, by simp [In, hs, hb, hst, hs1], hw⟩

/-- Method `AsA` on a sub-builder whose parent has a record. -/
theorem AsA_spec (jb : Ptr) (position : String) (w : World) (s : PersonJobBuilder)
    (b : PersonBuilder) (r : Person) (hs : loadJobBuilder jb w = some s)
    (hb : loadBuilder s.builder w = some b) (hr : loadPerson b.person w = some r) :
    ∃ w1, AsA jb position w = some (jb, w1)
      ∧ WritesOnly w w1 b.person { r with Position := position } := by
  obtain ⟨w1, hst, hw⟩ :=
    storePerson_spec b.person (fun r => { r with Position := position }) w r hr
  exact ⟨w1, by simp [AsA, hs, hb, hst], hw⟩

/-- Method `Earning` on a sub-builder whose parent has a record: the parent
comes back. -/
theorem Earning_spec (jb : Ptr) (income : Float64) (w : World) (s : PersonJobBuilder)
    (b : PersonBuilder) (r : Person) (hs : loadJobBuilder jb w = some s)
    (hb : loadBuilder s.builder w = some b) (hr : loadPerson b.person w = some r) :
    ∃ w1, Earning jb income w = some (s.builder, w1)
      ∧ WritesOnly w w1 b.person { r with Income := income } := by
  obtain ⟨w1, hst, hw⟩ :=
    storePerson_spec b.person (fun r => { r with Income := income }) w r hr
  have hs1 : loadJobBuilder jb w1 = some s :=
    (loadJobBuilder_congr jb w1 w hw.2.2.2.2.2).trans hs
  exact ⟨w1, by simp [Earning, hs, hb, hst, hs1], hw⟩

/-- Method `Lives`: one new sub-builder whose parent is the receiver;
records and builders untouched. -/
theorem Lives_spec (pb : Ptr) (w : World) :
    loadAddressBuilder (Lives pb w).1 (Lives pb w).2 = some { builder := pb }
      ∧ loadAddressBuilder (Lives pb w).1 w = none
      ∧ (Lives pb w).2.persons = w.persons
      ∧ (Lives pb w).2.builders = w.builders
      ∧ (Lives pb w).2.jobBuilders = w.jobBuilders := by
  simp [Lives, allocAddressBuilder, loadAddressBuilder, List.getElem?_concat_length]

/-- Method `Works`: one new sub-builder whose parent is the receiver;
records and builders untouched. -/
theorem Works_spec (pb : Ptr) (w : World) :
    loadJobBuilder (Works pb w).1 (Works pb w).2 = some { builder := pb }
      ∧ loadJobBuilder (Works pb w).1 w = none
      ∧ (Works pb w).2.persons = w.persons
      ∧ (Works pb w).2.builders = w.builders
      ∧ (Works pb w).2.addressBuilders = w.addressBuilders := by
  simp [Works, allocJobBuilder, loadJobBuilder, List.getElem?_concat_length]

/-- Function `NewPersonBuilder`: a new builder whose record is a new
zero-valued `Person`. -/
theorem NewPersonBuilder_spec (w : World) :
    loadBuilder (NewPersonBuilder w).1 (NewPersonBuilder w).2
        = some { person := some w.persons.length }
      ∧ loadPerson (some w.persons.length) (NewPersonBuilder w).2 = some Person.zero := by
  simp [NewPersonBuilder, allocPerson, allocBuilder, loadBuilder, loadPerson,
    List.getElem?_concat_length]

/-- After a write to its record, a builder is still the same builder. -/
theorem WritesOnly.loadBuilder_eq {w w1 : World} {p : Ptr} {r1 : Person}
    (hw : WritesOnly w w1 p r1) (pb : Ptr) : loadBuilder pb w1 = loadBuilder pb w :=
  builder_heap_congr pb w1 w hw.2.2.2.1

theorem WritesOnly.loadAddressBuilder_eq {w w1 : World} {p : Ptr} {r1 : Person}
    (hw : WritesOnly w w1 p r1) (ab : Ptr) :
    loadAddressBuilder ab w1 = loadAddressBuilder ab w :=
  loadAddressBuilder_congr ab w1 w hw.2.2.2.2.1

theorem WritesOnly.loadJobBuilder_eq {w w1 : World} {p : Ptr} {r1 : Person}
    (hw : WritesOnly w w1 p r1) (jb : Ptr) : loadJobBuilder jb w1 = loadJobBuilder jb w :=
  loadJobBuilder_congr jb w1 w hw.2.2.2.2.2

/-- The address group `Lives().At(a).WithPostcode(p).In(c)` on a builder
with a record. -/
theorem address_group_spec (w : World) (pb : Ptr) (b : PersonBuilder) (r : Person)
    (hb : loadBuilder pb w = some b) (hr : loadPerson b.person w = some r)
    (a p c : String) :
    ∃ ab w1 w2 w3 w4, Lives pb w = (ab, w1) ∧ At ab a w1 = some (ab, w2)
      ∧ WithPostcode ab p w2 = some (ab, w3) ∧ In ab c w3 = some (pb, w4)
      ∧ loadBuilder pb w4 = some b
      ∧ loadPerson b.person w4 = some { r with Address := a, Postcode := p, City := c } := by
  obtain ⟨hab, -, hp1, hb1, -⟩ := Lives_spec pb w
  have hb1 : loadBuilder pb (Lives pb w).2 = some b :=
    (builder_heap_congr pb _ w hb1).trans hb
  have hr1 : loadPerson b.person (Lives pb w).2 = some r :=
    (loadPerson_congr _ _ w hp1).trans hr
  obtain ⟨w2, h2, hw2⟩ := At_spec (Lives pb w).1 a (Lives pb w).2 _ b r hab hb1 hr1
  have hab2 := (hw2.loadAddressBuilder_eq (Lives pb w).1).trans hab
  have hb2 := (hw2.loadBuilder_eq pb).trans hb1
  obtain ⟨w3, h3, hw3⟩ := WithPostcode_spec (Lives pb w).1 p w2 _ b _ hab2 hb2 hw2.1
  have hab3 := (hw3.loadAddressBuilder_eq (Lives pb w).1).trans hab2
  have hb3 := (hw3.loadBuilder_eq pb).trans hb2
  obtain ⟨w4, h4, hw4⟩ := In_spec (Lives pb w).1 c w3 _ b _ hab3 hb3 hw3.1
  exact ⟨(Lives pb w).1, (Lives pb w).2, w2, w3, w4, rfl, h2, h3, h4,
    (hw4.loadBuilder_eq pb).trans hb3, hw4.1⟩

/-- The job group `Works().AsA(pos).Earning(inc)` on a builder with a
record. -/
theorem job_group_spec (w : World) (pb : Ptr) (b : PersonBuilder) (r : Person)
    (hb : loadBuilder pb w = some b) (hr : loadPerson b.person w = some r)
    (pos : String) (inc : Float64) :
    ∃ jb w1 w2 w3, Works pb w = (jb, w1) ∧ AsA jb pos w1 = some (jb, w2)
      ∧ Earning jb inc w2 = some (pb, w3)
      ∧ loadBuilder pb w3 = some b
      ∧ loadPerson b.person w3 = some { r with Position := pos, Income := inc } := by
  obtain ⟨hjb, -, hp1, hb1, -⟩ := Works_spec pb w
  have hb1 : loadBuilder pb (Works pb w).2 = some b :=
    (builder_heap_congr pb _ w hb1).trans hb
  have hr1 : loadPerson b.person (Works pb w).2 = some r :=
    (loadPerson_congr _ _ w hp1).trans hr
  obtain ⟨w2, h2, hw2⟩ := AsA_spec (Works pb w).1 pos (Works pb w).2 _ b r hjb hb1 hr1
  have hjb2 := (hw2.loadJobBuilder_eq (Works pb w).1).trans hjb
  have hb2 := (hw2.loadBuilder_eq pb).trans hb1
  obtain ⟨w3, h3, hw3⟩ := Earning_spec (Works pb w).1 inc w2 _ b _ hjb2 hb2 hw2.1
  exact ⟨(Works pb w).1, (Works pb w).2, w2, w3, rfl, h2, h3,
    (hw3.loadBuilder_eq pb).trans hb2, hw3.1⟩

/-- A builder without a record (`&PersonBuilder{}`) can open a sub-builder,
but the first setter of the group panics: the results below on groups and
setters are about builders that hold a record. -/
theorem zero_value_builder_group_panics (w : World) (a pos : String) :
    At (Lives (allocBuilder none w).1 (allocBuilder none w).2).1 a
        (Lives (allocBuilder none w).1 (allocBuilder none w).2).2 = none
    ∧ AsA (Works (allocBuilder none w).1 (allocBuilder none w).2).1 pos
        (Works (allocBuilder none w).1 (allocBuilder none w).2).2 = none := by
  simp [At, AsA, Lives, Works, allocBuilder, allocAddressBuilder, allocJobBuilder,
    loadAddressBuilder, loadJobBuilder, loadBuilder, storePerson,
    List.getElem?_concat_length]

/-! ## Contract and behaviour of the fluent builder -/

/-- C11: the completion method of a sub-builder returns the parent builder
it was opened from.  On every builder `pb` holding a record `r`,
`pb.Lives().At(a).WithPostcode(p).In(c)` returns `pb` itself and
`pb.Works().AsA(pos).Earning(inc)` returns `pb` itself, while `At`,
`WithPostcode` and `AsA` return the sub-builder they were called on; the
writes land on the record of `pb`, which ends as `r` with the written fields
replaced. -/
theorem completion_returns_parent (w : World) (pb : Ptr) (b : PersonBuilder) (r : Person)
    (hb : loadBuilder pb w = some b) (hr : loadPerson b.person w = some r)
    (a p c pos : String) (inc : Float64) :
    (∃ ab w1 w2 w3 w4, Lives pb w = (ab, w1) ∧ At ab a w1 = some (ab, w2)
        ∧ WithPostcode ab p w2 = some (ab, w3) ∧ In ab c w3 = some (pb, w4)
        ∧ loadBuilder pb w4 = some b
        ∧ loadPerson b.person w4
            = some { r with Address := a, Postcode := p, City := c })
    ∧ (∃ jb w1 w2 w3, Works pb w = (jb, w1) ∧ AsA jb pos w1 = some (jb, w2)
        ∧ Earning jb inc w2 = some (pb, w3)
        ∧ loadBuilder pb w3 = some b
        ∧ loadPerson b.person w3 = some { r with Position := pos, Income := inc }) :=
  ⟨address_group_spec w pb b r hb hr a p c, job_group_spec w pb b r hb hr pos inc⟩

/-- Instance of `completion_returns_parent` on the builder at address 1 of
`sampleWorld`. -/
theorem completion_returns_parent_witness :
    loadBuilder (some 1) sampleWorld = some { person := some 1 }
    ∧ loadPerson (some 1) sampleWorld = some sampleRecord
    ∧ (∃ ab w1 w2 w3 w4, Lives (some 1) sampleWorld = (ab, w1)
        ∧ At ab "3 Mid Ln" w1 = some (ab, w2)
        ∧ WithPostcode ab "53111" w2 = some (ab, w3) ∧ In ab "Bonn" w3 = some (some 1, w4)
        ∧ loadBuilder (some 1) w4 = some { person := some 1 }
        ∧ loadPerson (some 1) w4
            = some { sampleRecord with Address := "3 Mid Ln", Postcode := "53111",
                                       City := "Bonn" })
    ∧ (∃ jb w1 w2 w3, Works (some 1) sampleWorld = (jb, w1) ∧ AsA jb "Cook" w1 = some (jb, w2)
        ∧ Earning jb Float64.c75000 w2 = some (some 1, w3)
        ∧ loadBuilder (some 1) w3 = some { person := some 1 }
        ∧ loadPerson (some 1) w3
            = some { sampleRecord with Position := "Cook", Income := Float64.c75000 }) :=
  ⟨by decide, by decide,
   completion_returns_parent sampleWorld (some 1) { person := some 1 } sampleRecord
     (by decide) (by decide) "3 Mid Ln" "53111" "Bonn" "Cook" Float64.c75000⟩

/-- Method `Build` on a builder: the pointer held in `person` comes back
and the state is the one it was called in. -/
theorem Build_spec (pb : Ptr) (w : World) (b : PersonBuilder)
    (hb : loadBuilder pb w = some b) : Build pb w = some (b.person, w) := by
  simp [Build, hb]

theorem buildRecord_spec (pb : Ptr) (w : World) (b : PersonBuilder) (r : Person)
    (hb : loadBuilder pb w = some b) (hr : loadPerson b.person w = some r) :
    buildRecord pb w = some r := by
  simp [buildRecord, Build_spec pb w b hb, hr]

/-- One shared call on a fluent builder with a record. -/
theorem runCall_spec (c : BuilderFuncional.Call) (pb : Ptr) (w : World) (b : PersonBuilder)
    (r : Person) (hb : loadBuilder pb w = some b) (hr : loadPerson b.person w = some r) :
    ∃ w1, runCall c pb w = some (pb, w1) ∧ loadBuilder pb w1 = some b
      ∧ loadPerson b.person w1 = some (assign r c) := by
  cases c with
  | called name =>
    obtain ⟨w1, h1, hw1⟩ := Called_spec pb name w b r hb hr
    exact ⟨w1, by simp [runCall, h1], (hw1.loadBuilder_eq pb).trans hb, hw1.1⟩
  | livesAt address city =>
    obtain ⟨hab, -, hp1, hb1, -⟩ := Lives_spec pb w
    have hb1 : loadBuilder pb (Lives pb w).2 = some b :=
      (builder_heap_congr pb _ w hb1).trans hb
    have hr1 : loadPerson b.person (Lives pb w).2 = some r :=
      (loadPerson_congr _ _ w hp1).trans hr
    obtain ⟨w2, h2, hw2⟩ := At_spec (Lives pb w).1 address (Lives pb w).2 _ b r hab hb1 hr1
    have hab2 := (hw2.loadAddressBuilder_eq (Lives pb w).1).trans hab
    have hb2 := (hw2.loadBuilder_eq pb).trans hb1
    obtain ⟨w3, h3, hw3⟩ := In_spec (Lives pb w).1 city w2 _ b _ hab2 hb2 hw2.1
    exact ⟨w3, by simp [runCall, h2, h3], (hw3.loadBuilder_eq pb).trans hb2, hw3.1⟩

/-- A chain of shared calls on a fluent builder with a record. -/
theorem chain_spec (cs : List BuilderFuncional.Call) (pb : Ptr) (w : World)
    (b : PersonBuilder) (r : Person) (hb : loadBuilder pb w = some b)
    (hr : loadPerson b.person w = some r) :
    ∃ w1, chain cs pb w = some (pb, w1) ∧ loadBuilder pb w1 = some b
      ∧ loadPerson b.person w1 = some (cs.foldl assign r) := by
  induction cs generalizing w r with
  | nil => exact ⟨w, rfl, hb, hr⟩
  | cons c rest ih =>
    obtain ⟨w1, h1, hb1, hr1⟩ := runCall_spec c pb w b r hb hr
    obtain ⟨w2, h2, hb2, hr2⟩ := ih w1 _ hb1 hr1
    exact ⟨w2, by simp [chain, h1, h2], hb2, by simpa using hr2⟩

/-- On the three shared fields the fluent assignments are those of the
functional builder; the other three fields are not written. -/
theorem foldl_assign_shared (cs : List BuilderFuncional.Call) (r : Person) :
    ({ Name := (cs.foldl assign r).Name, Address := (cs.foldl assign r).Address,
       City := (cs.foldl assign r).City } : BuilderFuncional.Person)
        = cs.foldl BuilderFuncional.Call.assign
            { Name := r.Name, Address := r.Address, City := r.City }
      ∧ (cs.foldl assign r).Postcode = r.Postcode
      ∧ (cs.foldl assign r).Position = r.Position
      ∧ (cs.foldl assign r).Income = r.Income := by
  induction cs generalizing r with
  | nil => exact ⟨rfl, rfl, rfl, rfl⟩
  | cons c rest ih =>
    cases c with
    | called name =>
      simpa [assign, BuilderFuncional.Call.assign] using ih { r with Name := name }
    | livesAt address city =>
      simpa [assign, BuilderFuncional.Call.assign]
        using ih { { r with Address := address } with City := city }

/-- C14: the two builders agree on the shared fields.  For every sequence
`cs` of calls, each a `Called(n)` or an address group (`LivesAt(a, c)` on the
functional builder, `Lives().At(a).In(c)` on the fluent one), applying `cs`
to a fresh functional builder and to a fresh fluent builder and calling
`Build` on each succeeds on both sides and yields records with the same
`Name`, `Address` and `City`; the fluent record has `Postcode`, `Position`
and `Income` at their zero values. -/
theorem builders_agree_on_shared_fields (wf : BuilderFuncional.World) (w : World)
    (cs : List BuilderFuncional.Call) :
    ∃ rf r,
      BuilderFuncional.chainBuild cs (BuilderFuncional.NewPersonBuilder wf).1
          (BuilderFuncional.NewPersonBuilder wf).2 = some rf
      ∧ chainBuild cs (NewPersonBuilder w).1 (NewPersonBuilder w).2 = some r
      ∧ r.Name = rf.Name ∧ r.Address = rf.Address ∧ r.City = rf.City
      ∧ r.Postcode = "" ∧ r.Position = "" ∧ r.Income = Float64.zero := by
  obtain ⟨wf1, hfc, hfb, -⟩ :=
    BuilderFuncional.chain_eq cs _ _ _ (BuilderFuncional.loadBuilder_new wf)
  obtain ⟨hnb, hnr⟩ := NewPersonBuilder_spec w
  obtain ⟨w1, hc, hb1, hr1⟩ := chain_spec cs _ _ _ _ hnb hnr
  obtain ⟨hsh, hpc, hpos, hinc⟩ := foldl_assign_shared cs Person.zero
  refine ⟨cs.foldl BuilderFuncional.Call.assign BuilderFuncional.Person.zero,
    cs.foldl assign Person.zero, ?_, ?_, ?_, ?_, ?_, hpc, hpos, hinc⟩
  · simp [BuilderFuncional.chainBuild, hfc, BuilderFuncional.buildRecord_eq _ _ _ hfb,
      BuilderFuncional.foldl_effect_step]
  · simp [chainBuild, hc, buildRecord_spec _ _ _ _ hb1 hr1]
  · exact congrArg BuilderFuncional.Person.Name hsh
  · exact congrArg BuilderFuncional.Person.Address hsh
  · exact congrArg BuilderFuncional.Person.City hsh

/-- The nine-call chain on a fresh builder. -/
theorem fullChain_spec (n a p c pos : String) (inc : Float64) (w : World) :
    ∃ q w9, fullChain n a p c pos inc w = some (q, w9)
      ∧ loadPerson q w9
          = some { Name := n, Address := a, Postcode := p, City := c, Position := pos,
                   Income := inc } := by
  obtain ⟨hnb, hnr⟩ := NewPersonBuilder_spec w
  rcases hN : NewPersonBuilder w with ⟨pb0, w0⟩
  rw [hN] at hnb hnr
  obtain ⟨w1, h1, hw1⟩ := Called_spec pb0 n w0 _ _ hnb hnr
  have hb1 := (hw1.loadBuilder_eq pb0).trans hnb
  obtain ⟨ab, w2, w3, w4, w5, hL, hA, hP, hI, hb5, hr5⟩ :=
    address_group_spec w1 pb0 _ _ hb1 hw1.1 a p c
  obtain ⟨jb, w6, w7, w8, hW, hJ, hE, hb8, hr8⟩ :=
    job_group_spec w5 pb0 _ _ hb5 hr5 pos inc
  refine ⟨some w.persons.length, w8, ?_, ?_⟩
  · simp only [fullChain, hN, h1, hL, hA, hP, hI, hW, hJ, hE]
    exact Build_spec pb0 w8 _ hb8
  · simpa [Person.zero] using hr8

/-- C15: each setter of the fluent builder writes exactly its own field.
On a builder `pb` with record `r`, with an address sub-builder `ab` and a job
sub-builder `jb` opened from it: `Called` replaces `Name`, `At` replaces
`Address`, `WithPostcode` replaces `Postcode`, `In` replaces `City`, `AsA`
replaces `Position`, `Earning` replaces `Income`; in each case the record
keeps its other five fields and nothing else in the state changes.  `Lives`,
`Works` and `Build` leave every record as it is.  Consequently the nine-call
chain on a fresh builder builds `{n, a, p, c, pos, inc}`, and the chain of
`main` builds `{"John Doe", "123 Main St", "12345", "Anytown",
"Software Engineer", 75000}`. -/
theorem setters_write_own_field (w : World) (pb ab jb : Ptr) (b : PersonBuilder)
    (r : Person) (hb : loadBuilder pb w = some b) (hr : loadPerson b.person w = some r)
    (hab : loadAddressBuilder ab w = some { builder := pb })
    (hjb : loadJobBuilder jb w = some { builder := pb })
    (n a p c pos : String) (inc : Float64) :
    (∃ w1, Called pb n w = some (pb, w1) ∧ WritesOnly w w1 b.person { r with Name := n })
    ∧ (∃ w1, At ab a w = some (ab, w1) ∧ WritesOnly w w1 b.person { r with Address := a })
    ∧ (∃ w1, WithPostcode ab p w = some (ab, w1)
        ∧ WritesOnly w w1 b.person { r with Postcode := p })
    ∧ (∃ w1, In ab c w = some (pb, w1) ∧ WritesOnly w w1 b.person { r with City := c })
    ∧ (∃ w1, AsA jb pos w = some (jb, w1)
        ∧ WritesOnly w w1 b.person { r with Position := pos })
    ∧ (∃ w1, Earning jb inc w = some (pb, w1)
        ∧ WritesOnly w w1 b.person { r with Income := inc })
    ∧ (Lives pb w).2.persons = w.persons
    ∧ (Works pb w).2.persons = w.persons
    ∧ Build pb w = some (b.person, w)
    ∧ (∀ w0, ∃ q w9, fullChain n a p c pos inc w0 = some (q, w9)
        ∧ loadPerson q w9
            = some { Name := n, Address := a, Postcode := p, City := c, Position := pos,
                     Income := inc })
    ∧ (∀ w0, ∃ q w9, mainChain w0 = some (q, w9)
        ∧ loadPerson q w9
            = some { Name := "John Doe", Address := "123 Main St", Postcode := "12345",
                     City := "Anytown", Position := "Software Engineer",
                     Income := Float64.c75000 }) :=
  ⟨Called_spec pb n w b r hb hr,
   At_spec ab a w _ b r hab hb hr,
   WithPostcode_spec ab p w _ b r hab hb hr,
   In_spec ab c w _ b r hab hb hr,
   AsA_spec jb pos w _ b r hjb hb hr,
   Earning_spec jb inc w _ b r hjb hb hr,
   (Lives_spec pb w).2.2.1,
   (Works_spec pb w).2.2.1,
   Build_spec pb w b hb,
   fun w0 => fullChain_spec n a p c pos inc w0,
   fun w0 => fullChain_spec "John Doe" "123 Main St" "12345" "Anytown" "Software Engineer"
     Float64.c75000 w0⟩

/-- Instance of `setters_write_own_field` on the builder at address 1 of
`sampleWorld` and the two sub-builders opened from it, with the arguments
of `main`. -/
theorem setters_write_own_field_witness :
    loadBuilder (some 1) sampleWorld = some { person := some 1 }
    ∧ loadPerson (some 1) sampleWorld = some sampleRecord
    ∧ loadAddressBuilder (some 0) sampleWorld = some { builder := some 1 }
    ∧ loadJobBuilder (some 0) sampleWorld = some { builder := some 1 }
    ∧ (∃ w1, Called (some 1) "John Doe" sampleWorld = some (some 1, w1)
        ∧ WritesOnly sampleWorld w1 (some 1) { sampleRecord with Name := "John Doe" })
    ∧ (∃ w1, At (some 0) "123 Main St" sampleWorld = some (some 0, w1)
        ∧ WritesOnly sampleWorld w1 (some 1) { sampleRecord with Address := "123 Main St" })
    ∧ (∃ w1, WithPostcode (some 0) "12345" sampleWorld = some (some 0, w1)
        ∧ WritesOnly sampleWorld w1 (some 1) { sampleRecord with Postcode := "12345" })
    ∧ (∃ w1, In (some 0) "Anytown" sampleWorld = some (some 1, w1)
        ∧ WritesOnly sampleWorld w1 (some 1) { sampleRecord with City := "Anytown" })
    ∧ (∃ w1, AsA (some 0) "Software Engineer" sampleWorld = some (some 0, w1)
        ∧ WritesOnly sampleWorld w1 (some 1)
            { sampleRecord with Position := "Software Engineer" })
    ∧ (∃ w1, Earning (some 0) Float64.c75000 sampleWorld = some (some 1, w1)
        ∧ WritesOnly sampleWorld w1 (some 1) { sampleRecord with Income := Float64.c75000 })
    ∧ (Lives (some 1) sampleWorld).2.persons = sampleWorld.persons
    ∧ (Works (some 1) sampleWorld).2.persons = sampleWorld.persons
    ∧ Build (some 1) sampleWorld = some (some 1, sampleWorld)
    ∧ (∀ w0, ∃ q w9,
        fullChain "John Doe" "123 Main St" "12345" "Anytown" "Software Engineer"
          Float64.c75000 w0 = some (q, w9)
        ∧ loadPerson q w9
            = some { Name := "John Doe", Address := "123 Main St", Postcode := "12345",
                     City := "Anytown", Position := "Software Engineer",
                     Income := Float64.c75000 })
    ∧ (∀ w0, ∃ q w9, mainChain w0 = some (q, w9)
        ∧ loadPerson q w9
            = some { Name := "John Doe", Address := "123 Main St", Postcode := "12345",
                     City := "Anytown", Position := "Software Engineer",
                     Income := Float64.c75000 }) :=
  ⟨by decide, by decide, by decide, by decide,
   setters_write_own_field sampleWorld (some 1) (some 0) (some 0) { person := some 1 }
     sampleRecord (by decide) (by decide) (by decide) (by decide)
     "John Doe" "123 Main St" "12345" "Anytown" "Software Engineer" Float64.c75000⟩

/-- Functional builder, for comparison: on a fresh builder, a `Build`, then
`Called(n2)`, then a second `Build` return two different pointers; the first
record stays zero-valued and only the second has the name. -/
theorem functional_build_is_fresh (wf : BuilderFuncional.World) (n2 : String) :
    ∃ p1 w1 pb2 w2 p3 w3,
      BuilderFuncional.Build (BuilderFuncional.NewPersonBuilder wf).1
          (BuilderFuncional.NewPersonBuilder wf).2 = some (p1, w1)
      ∧ BuilderFuncional.Called (BuilderFuncional.NewPersonBuilder wf).1 n2 w1
          = some (pb2, w2)
      ∧ BuilderFuncional.Build pb2 w2 = some (p3, w3)
      ∧ p3 ≠ p1
      ∧ BuilderFuncional.loadPerson p1 w3 = some BuilderFuncional.Person.zero
      ∧ BuilderFuncional.loadPerson p3 w3
          = some { BuilderFuncional.Person.zero with Name := n2 } := by
  have hb0 := BuilderFuncional.loadBuilder_new wf
  have h1 := BuilderFuncional.Build_eq _ _ _ hb0
  have hb1 := (BuilderFuncional.loadBuilder_congr (BuilderFuncional.NewPersonBuilder wf).1
    { persons := (BuilderFuncional.NewPersonBuilder wf).2.persons
        ++ [([] : List BuilderFuncional.PersonModifier).foldl
              BuilderFuncional.PersonModifier.effect BuilderFuncional.Person.zero],
      builders := (BuilderFuncional.NewPersonBuilder wf).2.builders,
      stdout := (BuilderFuncional.NewPersonBuilder wf).2.stdout
        ++ ([] : List BuilderFuncional.PersonModifier).map
              BuilderFuncional.PersonModifier.message }
    (BuilderFuncional.NewPersonBuilder wf).2 rfl).trans hb0
  obtain ⟨w2, h2, hb2, hp2, -⟩ :=
    BuilderFuncional.Call_run_eq (.called n2) _ _ _ hb1
  have h3 := BuilderFuncional.Build_eq _ w2 _ hb2
  refine ⟨_, _, _, w2, _, _, h1, h2, h3, ?_, ?_, ?_⟩
  · rw [hp2]
    simp
  · simp only [BuilderFuncional.loadPerson, hp2, List.foldl_nil, List.append_assoc]
    exact BuilderFuncional.getElem?_append_cons_length _ _ _
  · simp only [BuilderFuncional.loadPerson]
    rw [List.getElem?_concat_length]
    simp [BuilderFuncional.Call.step, BuilderFuncional.PersonModifier.effect]

/-- C17: `Build` of the fluent builder returns the builder's own record and
neither copies nor resets it.  On every builder `b` at `pb`: `Build` returns
the pointer held in `pb.person` and leaves the whole state, hence `pb` and
every record, as it was; two `Build` calls in a row return the same pointer.
When that pointer is to a record `r`: the record is still `r` after `Build`,
and after `Build`, `Called(n2)`, `Build`, the second `Build` returns the same
pointer again and the record behind it, which is also the record the first
`Build` returned, has `Name = n2`.  The functional builder differs: there
the two `Build` calls return different pointers and the first record does
not see `n2`. -/
theorem build_returns_own_record (w : World) (pb : Ptr) (b : PersonBuilder)
    (hb : loadBuilder pb w = some b) (n2 : String) :
    Build pb w = some (b.person, w)
    ∧ (∃ p1 w1 p2 w2, Build pb w = some (p1, w1) ∧ Build pb w1 = some (p2, w2)
        ∧ p2 = p1 ∧ w2 = w ∧ loadBuilder pb w2 = some b)
    ∧ (∀ r, loadPerson b.person w = some r →
        ∃ p1 w1 pb2 w2 p3 w3, Build pb w = some (p1, w1) ∧ loadPerson p1 w1 = some r
          ∧ Called pb n2 w1 = some (pb2, w2)
          ∧ Build pb2 w2 = some (p3, w3)
          ∧ p3 = p1 ∧ loadPerson p1 w3 = some { r with Name := n2 })
    ∧ (∀ wf : BuilderFuncional.World, ∃ p1 w1 pb2 w2 p3 w3,
        BuilderFuncional.Build (BuilderFuncional.NewPersonBuilder wf).1
            (BuilderFuncional.NewPersonBuilder wf).2 = some (p1, w1)
        ∧ BuilderFuncional.Called (BuilderFuncional.NewPersonBuilder wf).1 n2 w1
            = some (pb2, w2)
        ∧ BuilderFuncional.Build pb2 w2 = some (p3, w3)
        ∧ p3 ≠ p1
        ∧ BuilderFuncional.loadPerson p1 w3 = some BuilderFuncional.Person.zero
        ∧ BuilderFuncional.loadPerson p3 w3
            = some { BuilderFuncional.Person.zero with Name := n2 }) := by
  have hbuild := Build_spec pb w b hb
  refine ⟨hbuild, ⟨_, _, _, _, hbuild, hbuild, rfl, rfl, hb⟩, ?_,
    fun wf => functional_build_is_fresh wf n2⟩
  intro r hr
  obtain ⟨w2, h2, hw2⟩ := Called_spec pb n2 w b r hb hr
  exact ⟨_, _, _, _, _, _, hbuild, hr, h2,
    Build_spec pb w2 b ((hw2.loadBuilder_eq pb).trans hb), rfl, hw2.1⟩

/-- Instance of `build_returns_own_record` on the builder at address 1 of
`sampleWorld`, whose record is `sampleRecord`. -/
theorem build_returns_own_record_witness :
    loadBuilder (some 1) sampleWorld = some { person := some 1 }
    ∧ Build (some 1) sampleWorld = some (some 1, sampleWorld)
    ∧ loadPerson (some 1) sampleWorld = some sampleRecord
    ∧ (∃ p1 w1 pb2 w2 p3 w3, Build (some 1) sampleWorld = some (p1, w1)
        ∧ loadPerson p1 w1 = some sampleRecord
        ∧ Called (some 1) "Eve" w1 = some (pb2, w2)
        ∧ Build pb2 w2 = some (p3, w3)
        ∧ p3 = p1 ∧ loadPerson p1 w3 = some { sampleRecord with Name := "Eve" }) :=
  ⟨by decide,
   (build_returns_own_record sampleWorld (some 1) { person := some 1 } (by decide) "Eve").1,
   by decide,
   (build_returns_own_record sampleWorld (some 1) { person := some 1 } (by decide)
      "Eve").2.2.1 sampleRecord (by decide)⟩

/-! ## Nil safety of method chains -/

theorem builderOk_iff (pb : Ptr) (w : World) :
    builderOk pb w = true
      ↔ ∃ b r, loadBuilder pb w = some b ∧ loadPerson b.person w = some r := by
  unfold builderOk
  cases hb : loadBuilder pb w with
  | none => simp
  | some b =>
    cases hr : loadPerson b.person w with
    | none => simp [hr]
    | some r => simp [hr]

theorem builderOk_after_write {w w1 : World} {r1 : Person} (pb : Ptr) (b : PersonBuilder)
    (hb : loadBuilder pb w = some b) (hw : WritesOnly w w1 b.person r1) :
    builderOk pb w1 = true :=
  (builderOk_iff pb w1).mpr ⟨b, r1, (hw.loadBuilder_eq pb).trans hb, hw.1⟩

/-- A receiver that is safe to use accepts every method of its type, and the
receiver the chain continues with is safe to use as well. -/
theorem Method_run_ok (m : Method) (recv : Recv) (w : World) (hok : recv.ok w = true)
    (hk : m.signature.1 = recv.kind) :
    ∃ recv1 w1, m.run recv w = some (recv1, w1) ∧ recv1.ok w1 = true
      ∧ recv1.kind = m.signature.2 := by
  cases recv with
  | builder pb =>
    obtain ⟨b, r, hb, hr⟩ := (builderOk_iff pb w).mp hok
    cases m with
    | Called name =>
      obtain ⟨w1, h1, hw1⟩ := Called_spec pb name w b r hb hr
      exact ⟨.builder pb, w1, by simp [Method.run, h1], builderOk_after_write pb b hb hw1, rfl⟩
    | Lives =>
      obtain ⟨hab, -, hp1, hb1, -⟩ := Lives_spec pb w
      refine ⟨.address (Lives pb w).1, (Lives pb w).2, rfl, ?_, rfl⟩
      simp only [Recv.ok, hab]
      exact (builderOk_iff pb _).mpr
        ⟨b, r, (builder_heap_congr pb _ w hb1).trans hb, (loadPerson_congr _ _ w hp1).trans hr⟩
    | Works =>
      obtain ⟨hjb, -, hp1, hb1, -⟩ := Works_spec pb w
      refine ⟨.job (Works pb w).1, (Works pb w).2, rfl, ?_, rfl⟩
      simp only [Recv.ok, hjb]
      exact (builderOk_iff pb _).mpr
        ⟨b, r, (builder_heap_congr pb _ w hb1).trans hb, (loadPerson_congr _ _ w hp1).trans hr⟩
    | Build =>
      exact ⟨.builder pb, w, by simp [Method.run, Build_spec pb w b hb], hok, rfl⟩
    | At _ => simp [Method.signature, Recv.kind] at hk
    | WithPostcode _ => simp [Method.signature, Recv.kind] at hk
    | In _ => simp [Method.signature, Recv.kind] at hk
    | AsA _ => simp [Method.signature, Recv.kind] at hk
    | Earning _ => simp [Method.signature, Recv.kind] at hk
  | address ab =>
    simp only [Recv.ok] at hok
    cases hs : loadAddressBuilder ab w with
    | none => simp [hs] at hok
    | some s =>
      simp only [hs] at hok
      obtain ⟨b, r, hb, hr⟩ := (builderOk_iff s.builder w).mp hok
      cases m with
      | At address =>
        obtain ⟨w1, h1, hw1⟩ := At_spec ab address w s b r hs hb hr
        refine ⟨.address ab, w1, by simp [Method.run, h1], ?_, rfl⟩
        simp only [Recv.ok, (hw1.loadAddressBuilder_eq ab).trans hs]
        exact builderOk_after_write s.builder b hb hw1
      | WithPostcode postcode =>
        obtain ⟨w1, h1, hw1⟩ := WithPostcode_spec ab postcode w s b r hs hb hr
        refine ⟨.address ab, w1, by simp [Method.run, h1], ?_, rfl⟩
        simp only [Recv.ok, (hw1.loadAddressBuilder_eq ab).trans hs]
        exact builderOk_after_write s.builder b hb hw1
      | In city =>
        obtain ⟨w1, h1, hw1⟩ := In_spec ab city w s b r hs hb hr
        exact ⟨.builder s.builder, w1, by simp [Method.run, h1],
          builderOk_after_write s.builder b hb hw1, rfl⟩
      | Called _ => simp [Method.signature, Recv.kind] at hk
      | Lives => simp [Method.signature, Recv.kind] at hk
      | Works => simp [Method.signature, Recv.kind] at hk
      | Build => simp [Method.signature, Recv.kind] at hk
      | AsA _ => simp [Method.signature, Recv.kind] at hk
      | Earning _ => simp [Method.signature, Recv.kind] at hk
  | job jb =>
    simp only [Recv.ok] at hok
    cases hs : loadJobBuilder jb w with
    | none => simp [hs] at hok
    | some s =>
      simp only [hs] at hok
      obtain ⟨b, r, hb, hr⟩ := (builderOk_iff s.builder w).mp hok
      cases m with
      | AsA position =>
        obtain ⟨w1, h1, hw1⟩ := AsA_spec jb position w s b r hs hb hr
        refine ⟨.job jb, w1, by simp [Method.run, h1], ?_, rfl⟩
        simp only [Recv.ok, (hw1.loadJobBuilder_eq jb).trans hs]
        exact builderOk_after_write s.builder b hb hw1
      | Earning income =>
        obtain ⟨w1, h1, hw1⟩ := Earning_spec jb income w s b r hs hb hr
        exact ⟨.builder s.builder, w1, by simp [Method.run, h1],
          builderOk_after_write s.builder b hb hw1, rfl⟩
      | Called _ => simp [Method.signature, Recv.kind] at hk
      | Lives => simp [Method.signature, Recv.kind] at hk
      | Works => simp [Method.signature, Recv.kind] at hk
      | Build => simp [Method.signature, Recv.kind] at hk
      | At _ => simp [Method.signature, Recv.kind] at hk
      | WithPostcode _ => simp [Method.signature, Recv.kind] at hk
      | In _ => simp [Method.signature, Recv.kind] at hk

/-- A well-typed chain started on a safe receiver runs to its end without a
nil dereference and ends on a safe receiver. -/
theorem runMethods_ok (ms : List Method) (recv : Recv) (w : World)
    (hok : recv.ok w = true) (ht : wellTyped ms recv.kind = true) :
    ∃ recv1 w1, runMethods ms recv w = some (recv1, w1) ∧ recv1.ok w1 = true := by
  induction ms generalizing recv w with
  | nil => exact ⟨recv, w, rfl, hok⟩
  | cons m rest ih =>
    have ht0 : m.signature.1 = recv.kind ∧ wellTyped rest m.signature.2 = true := by
      simpa [wellTyped] using ht
    obtain ⟨recv1, w1, h1, hok1, hk1⟩ := Method_run_ok m recv w hok ht0.1
    obtain ⟨recv2, w2, h2, hok2⟩ := ih recv1 w1 hok1 (by rw [hk1]; exact ht0.2)
    exact ⟨recv2, w2, by simp [runMethods, h1, h2], hok2⟩

/-- What `Recv.ok` says in terms of nil: the receiver is an object, a
builder's `person` is not nil, a sub-builder's `builder` is not nil and that
builder's `person` is not nil. -/
theorem Recv_ok_non_nil (recv : Recv) (w : World) (hok : recv.ok w = true) :
    (∀ pb, recv = .builder pb →
        ∃ b, loadBuilder pb w = some b ∧ b.person ≠ none)
    ∧ (∀ ab, recv = .address ab →
        ∃ s b, loadAddressBuilder ab w = some s ∧ s.builder ≠ none
          ∧ loadBuilder s.builder w = some b ∧ b.person ≠ none)
    ∧ (∀ jb, recv = .job jb →
        ∃ s b, loadJobBuilder jb w = some s ∧ s.builder ≠ none
          ∧ loadBuilder s.builder w = some b ∧ b.person ≠ none) := by
  have key : ∀ pb, builderOk pb w = true →
      pb ≠ none ∧ ∃ b, loadBuilder pb w = some b ∧ b.person ≠ none := by
    intro pb h
    obtain ⟨b, r, hb, hr⟩ := (builderOk_iff pb w).mp h
    refine ⟨?_, b, hb, ?_⟩
    · rintro rfl
      simp [loadBuilder] at hb
    · intro hp
      rw [hp] at hr
      simp [loadPerson] at hr
  refine ⟨?_, ?_, ?_⟩
  · rintro pb rfl
    exact (key pb hok).2
  · rintro ab rfl
    simp only [Recv.ok] at hok
    cases hs : loadAddressBuilder ab w with
    | none => simp [hs] at hok
    | some s =>
      simp only [hs] at hok
      obtain ⟨hne, b, hb, hp⟩ := key s.builder hok
      exact ⟨s, b, rfl, hne, hb, hp⟩
  · rintro jb rfl
    simp only [Recv.ok] at hok
    cases hs : loadJobBuilder jb w with
    | none => simp [hs] at hok
    | some s =>
      simp only [hs] at hok
      obtain ⟨hne, b, hb, hp⟩ := key s.builder hok
      exact ⟨s, b, rfl, hne, hb, hp⟩

/-- C16: every receiver reached from `NewPersonBuilder()` is non-nil where
it matters.  For every well-typed chain `ms` of `Called`, `Lives`, `At`,
`WithPostcode`, `In`, `Works`, `AsA`, `Earning` and `Build` calls started on
a fresh builder (in any state `w`), the whole chain runs without a nil
dereference; the receiver it ends on, if a builder, has a non-nil record,
and, if a sub-builder, has a non-nil parent builder whose record is non-nil.
A zero-value `PersonBuilder` (`&PersonBuilder{}`) has a nil record, and
`Called` on it fails. -/
theorem reachable_receivers_non_nil (w : World) (ms : List Method)
    (ht : wellTyped ms .builder = true) (name : String) :
    (∃ recv w1,
        runMethods ms (.builder (NewPersonBuilder w).1) (NewPersonBuilder w).2
          = some (recv, w1)
        ∧ recv.ok w1 = true
        ∧ (∀ pb, recv = .builder pb →
            ∃ b, loadBuilder pb w1 = some b ∧ b.person ≠ none)
        ∧ (∀ ab, recv = .address ab →
            ∃ s b, loadAddressBuilder ab w1 = some s ∧ s.builder ≠ none
              ∧ loadBuilder s.builder w1 = some b ∧ b.person ≠ none)
        ∧ (∀ jb, recv = .job jb →
            ∃ s b, loadJobBuilder jb w1 = some s ∧ s.builder ≠ none
              ∧ loadBuilder s.builder w1 = some b ∧ b.person ≠ none))
    ∧ loadBuilder (allocBuilder none w).1 (allocBuilder none w).2 = some { person := none }
    ∧ Called (allocBuilder none w).1 name (allocBuilder none w).2 = none := by
  obtain ⟨hnb, hnr⟩ := NewPersonBuilder_spec w
  have hok : (Recv.builder (NewPersonBuilder w).1).ok (NewPersonBuilder w).2 = true :=
    (builderOk_iff _ _).mpr ⟨_, _, hnb, hnr⟩
  obtain ⟨recv, w1, hrun, hok1⟩ := runMethods_ok ms _ _ hok ht
  have hz : loadBuilder (allocBuilder none w).1 (allocBuilder none w).2
      = some { person := none } := by
    simp [allocBuilder, loadBuilder, List.getElem?_concat_length]
  refine ⟨⟨recv, w1, hrun, hok1, Recv_ok_non_nil recv w1 hok1⟩, hz, ?_⟩
  simp [Called, hz, storePerson]

/-- Instance of `reachable_receivers_non_nil`: `sampleMethods` on a fresh
builder made in `sampleWorld`. -/
theorem reachable_receivers_non_nil_witness :
    wellTyped sampleMethods .builder = true
    ∧ (∃ recv w1,
        runMethods sampleMethods (.builder (NewPersonBuilder sampleWorld).1)
            (NewPersonBuilder sampleWorld).2 = some (recv, w1)
        ∧ recv.ok w1 = true
        ∧ (∀ pb, recv = .builder pb →
            ∃ b, loadBuilder pb w1 = some b ∧ b.person ≠ none)
        ∧ (∀ ab, recv = .address ab →
            ∃ s b, loadAddressBuilder ab w1 = some s ∧ s.builder ≠ none
              ∧ loadBuilder s.builder w1 = some b ∧ b.person ≠ none)
        ∧ (∀ jb, recv = .job jb →
            ∃ s b, loadJobBuilder jb w1 = some s ∧ s.builder ≠ none
              ∧ loadBuilder s.builder w1 = some b ∧ b.person ≠ none))
    ∧ loadBuilder (allocBuilder none sampleWorld).1 (allocBuilder none sampleWorld).2
        = some { person := none }
    ∧ Called (allocBuilder none sampleWorld).1 "Eve" (allocBuilder none sampleWorld).2 = none :=
  ⟨by decide, reachable_receivers_non_nil sampleWorld sampleMethods (by decide) "Eve"⟩

end BuilderFluent
